import Mathlib

/-!
# Constellations: particle physics, pair rendering and speed generation

A shallow embedding of `src/driver.c` (the C program that animates 115 particles on a
canvas), of the parts of `src/driver.cpp` that differ from it (`random_speed` and the
script-side `setParticleCount`) and of the context handling of `lib/canvas.c`, together
with theorems about them.

Modelling conventions.

* A C `double` is modelled by an element of a linearly ordered field `α`.  The physics
  and the loop structure are written for every such `α`; they run on `ℚ`.  Functions
  that call `sqrt` or `pow` with a non-integer exponent are written over `ℝ` with
  `Real.sqrt` and the real power.  Rounding, infinities and NaN are outside this model.
* A C `int` (the canvas width and height) is modelled by `Int`; `canvas_width -
  PARTICLE_SIZE` is an `int` subtraction in the source and is an `Int` subtraction here,
  converted to `α` only for the comparison and the assignment.
* The global array `particles` is a `List`; the calls that `animate` makes to
  `draw_particle` and `line_between` are recorded, in order, in a list of `Call`s.
* Objects allocated by `lib/canvas.c` live in a `Heap`; a pointer is an index into it and
  `NULL` is `none`.
-/

namespace Constellations

/-! ## Constants of `driver.c` -/

/-- Source: `#define PARTICLE_COUNT 115` -/
def PARTICLE_COUNT : Nat := 115

/-- Source: `#define PARTICLE_SIZE 3` (an `int` constant). -/
def PARTICLE_SIZE : Int := 3

/-- Source: `#define THRESHOLD 250.0` -/
def THRESHOLD : ℝ := 250

/-- Source: `#define SPEED_MULTIPLIER 2.5` -/
noncomputable def SPEED_MULTIPLIER : ℝ := 2.5

/-! ## Data model -/

/-- Source: `struct Particle { double x; double y; double vx; double vy; }` -/
structure Particle (α : Type) where
  x : α
  y : α
  vx : α
  vy : α
  deriving DecidableEq, Repr

/-- A call made by `animate`, with the loop indices of the call site and the arguments
that were passed. -/
inductive Call (α : Type) where
  | draw_particle (i : Nat) (x y : α)
  | line_between (i j : Nat) (x1 y1 x2 y2 : α)
  deriving DecidableEq, Repr

section Physics

variable {α : Type} [LinearOrderedField α]

/-- The value read from `particles[i]`.  In the program the index is always below the
declared array size `PARTICLE_COUNT`; outside the list the model reads a zero particle. -/
def particleAt (ps : List (Particle α)) (i : Nat) : Particle α :=
  ps.getD i ⟨0, 0, 0, 0⟩

/-- The physics update of one particle in one tick, lines 106-127 of `driver.c`, with
the statements in source order: both additions first, then the x test, then the y test. -/
def physics (canvas_width canvas_height : Int) (p : Particle α) : Particle α :=
  let p := { p with x := p.x + p.vx }
  let p := { p with y := p.y + p.vy }
  let p :=
    if p.x < (PARTICLE_SIZE : α) then
      { p with vx := p.vx * -1, x := (PARTICLE_SIZE : α) }
    else if p.x > ((canvas_width - PARTICLE_SIZE : Int) : α) then
      { p with vx := p.vx * -1, x := ((canvas_width - PARTICLE_SIZE : Int) : α) }
    else p
  let p :=
    if p.y < (PARTICLE_SIZE : α) then
      { p with vy := p.vy * -1, y := (PARTICLE_SIZE : α) }
    else if p.y > ((canvas_height - PARTICLE_SIZE : Int) : α) then
      { p with vy := p.vy * -1, y := ((canvas_height - PARTICLE_SIZE : Int) : α) }
    else p
  p

/-- The per-axis rule as the specification words it: with `p = pos + vel`, if `p < 3`
the result is `(3, -vel)`; else if `p > extent - 3` it is `(extent - 3, -vel)`;
otherwise `(p, vel)`.  Returns `(pos, vel)`. -/
def axisRule (extent : Int) (pos vel : α) : α × α :=
  if pos + vel < 3 then (3, -vel)
  else if pos + vel > (extent : α) - 3 then ((extent : α) - 3, -vel)
  else (pos + vel, vel)

/-- The state threaded through `animate`: the global array `particles` and the calls
issued so far. -/
structure AnimState (α : Type) where
  particles : List (Particle α)
  calls : List (Call α)

/-- The inner loop of `animate`, lines 102-104:
`for (int j = i + 1; j < PARTICLE_COUNT; ++j) line_between(particles[i].x, particles[i].y,
particles[j].x, particles[j].y);` with `n` for `PARTICLE_COUNT`.  It reads the array and
emits one call per `j`; it writes nothing. -/
def lineCalls (n : Nat) (ps : List (Particle α)) (i : Nat) : List (Call α) :=
  (List.range' (i + 1) (n - (i + 1))).map fun j =>
    Call.line_between i j (particleAt ps i).x (particleAt ps i).y
      (particleAt ps j).x (particleAt ps j).y

/-- One iteration of the outer loop of `animate`, lines 100-127, for index `i`:
`draw_particle`, then the inner loop, then the physics update written back to
`particles[i]`. -/
def animateBody (n : Nat) (canvas_width canvas_height : Int) (s : AnimState α) (i : Nat) :
    AnimState α :=
  let calls := s.calls ++ [Call.draw_particle i (particleAt s.particles i).x
    (particleAt s.particles i).y]
  let calls := calls ++ lineCalls n s.particles i
  { particles := s.particles.set i (physics canvas_width canvas_height (particleAt s.particles i)),
    calls := calls }

/-- The state of `animate` after the first `k` iterations of its outer loop. -/
def animateLoop (n : Nat) (canvas_width canvas_height : Int) (ps : List (Particle α))
    (k : Nat) : AnimState α :=
  (List.range k).foldl (animateBody n canvas_width canvas_height) ⟨ps, []⟩

/-- One tick: `animate()` of `driver.c`, lines 88-129, for an array of `n` particles
(`n` is `PARTICLE_COUNT` in the program) and the window size `canvas_width`,
`canvas_height` read at lines 89-90.  The canvas resize and the fill style of lines 91-96
take no part in the particle state and are not recorded. -/
def animate (n : Nat) (canvas_width canvas_height : Int) (ps : List (Particle α)) :
    AnimState α :=
  animateLoop n canvas_width canvas_height ps n

/-- The index pairs `(i, j)` of the `line_between` calls in a list of calls, in order. -/
def linePairs : List (Call α) → List (Nat × Nat)
  | [] => []
  | Call.line_between i j _ _ _ _ :: cs => (i, j) :: linePairs cs
  | Call.draw_particle _ _ _ :: cs => linePairs cs

/-- The drawing that the particles `ps` call for when nothing moves: for each `i` in
order, the disc of particle `i` and then its lines to every later particle, all read from
`ps` itself. -/
def drawingOf (n : Nat) (ps : List (Particle α)) : List (Call α) :=
  (List.range n).flatMap fun i =>
    Call.draw_particle i (particleAt ps i).x (particleAt ps i).y :: lineCalls n ps i

/-- A call carries the coordinates that the array `ps` holds at the indices of its call
site. -/
def drawnFrom (ps : List (Particle α)) : Call α → Prop
  | Call.draw_particle i x y => x = (particleAt ps i).x ∧ y = (particleAt ps i).y
  | Call.line_between i j x1 y1 x2 y2 =>
    x1 = (particleAt ps i).x ∧ y1 = (particleAt ps i).y ∧
      x2 = (particleAt ps j).x ∧ y2 = (particleAt ps j).y

/-- Source: `double min(double a, double b) { return a < b ? a : b; }` -/
def min (a b : α) : α := if a < b then a else b

end Physics

/-! ## Distance and line drawing (over `ℝ`) -/

/-- A call on the 2D context made by `line_between`.  The colour string
`"rgba(229, 227, 223, %f)"` is represented by the number printed in its last field. -/
inductive CtxCall where
  | setLineWidth (width : ℝ)
  | setStrokeStyle (alpha : ℝ)
  | beginPath
  | moveTo (x y : ℝ)
  | lineTo (x y : ℝ)
  | stroke

/-- Source: `double distance(double x1, double y1, double x2, double y2) {
return sqrt(pow(x1 - x2, 2) + pow(y1 - y2, 2)); }` -/
noncomputable def distance (x1 y1 x2 y2 : ℝ) : ℝ :=
  Real.sqrt ((x1 - x2) ^ 2 + (y1 - y2) ^ 2)

/-- Function `line_between` of `driver.c`, lines 62-78: the context calls it makes, in order. -/
noncomputable def line_between (x1 y1 x2 y2 : ℝ) : List CtxCall :=
  let dist := distance x1 y1 x2 y2
  if dist < THRESHOLD then
    let opacity := (THRESHOLD / dist) - 1
    [CtxCall.setLineWidth (min opacity (PARTICLE_SIZE : ℝ)),
     CtxCall.setStrokeStyle opacity,
     CtxCall.beginPath,
     CtxCall.moveTo x1 y1,
     CtxCall.lineTo x2 y2,
     CtxCall.stroke]
  else []

/-- Whether a list of context calls contains a `stroke`. -/
def strokes : List CtxCall → Bool
  | [] => false
  | CtxCall.stroke :: _ => true
  | _ :: cs => strokes cs

/-- The alpha of the first stroke style set in a list of context calls. -/
def alphaOf : List CtxCall → Option ℝ
  | [] => none
  | CtxCall.setStrokeStyle a :: _ => some a
  | _ :: cs => alphaOf cs

/-- The first line width set in a list of context calls. -/
def widthOf : List CtxCall → Option ℝ
  | [] => none
  | CtxCall.setLineWidth w :: _ => some w
  | _ :: cs => widthOf cs

/-! ## Random generation (over `ℝ`) -/

/-- Source: `double rand_01() { return (double)rand() / (double)(RAND_MAX); }` where `r` is the
result of the `rand()` call and `RAND_MAX` the constant of `<stdlib.h>`. -/
noncomputable def rand_01 (RAND_MAX r : Nat) : ℝ := (r : ℝ) / (RAND_MAX : ℝ)

/-- Function `random_speed` of `driver.c`, line 53:
`pow(0.5, (5 * rand_01()) + 4) * (rand() % 2 ? 1 : -1) * SPEED_MULTIPLIER`, where `r1` is
the result of the `rand()` inside `rand_01` and `r2` the result of the `rand()` of the
sign. -/
noncomputable def random_speed (RAND_MAX r1 r2 : Nat) : ℝ :=
  (0.5 : ℝ) ^ ((5 * rand_01 RAND_MAX r1) + 4)
    * (((if r2 % 2 ≠ 0 then 1 else -1 : Int) : ℝ)) * SPEED_MULTIPLIER

/-- Function `random_x` of `driver.c`, line 40: `canvas->getWidth(canvas) * rand_01()`, where
`width` is the `int` that `getWidth` returns and `r` the result of `rand()`. -/
noncomputable def random_x (width : Int) (RAND_MAX r : Nat) : ℝ :=
  (width : ℝ) * rand_01 RAND_MAX r

/-- Function `random_y` of `driver.c`, line 45: `canvas->getHeight(canvas) * rand_01()`. -/
noncomputable def random_y (height : Int) (RAND_MAX r : Nat) : ℝ :=
  (height : ℝ) * rand_01 RAND_MAX r

/-- Function `random_speed` of `driver.cpp`, line 23 (the one bound to the script side at
line 203): `pow(0.5, (((double)rand() / (double)(RAND_MAX) * 5) + 4)) * ((rand() % 1) - 1)`,
where `r1` is the result of the first `rand()` and `r2` of the second; `(rand() % 1) - 1`
is `int` arithmetic. -/
noncomputable def DriverCpp.random_speed (RAND_MAX r1 r2 : Nat) : ℝ :=
  (0.5 : ℝ) ^ ((((r1 : ℝ) / (RAND_MAX : ℝ)) * 5) + 4) * ((((r2 : Int) % 1) - 1 : Int) : ℝ)

/-! ## Repeated ticks -/

section Ticks

variable {α : Type} [LinearOrderedField α]

/-- The main loop (`emscripten_set_main_loop(&animate, 0, 1)`, line 153) calls `animate`
once per frame; `sizes` lists the window sizes read by the successive calls.  The result is
the array `particles` after all of them. -/
def ticks (n : Nat) (sizes : List (Int × Int)) (ps : List (Particle α)) : List (Particle α) :=
  sizes.foldl (fun qs wh => (animate n wh.1 wh.2 qs).particles) ps

/-- The physics update applied to one particle once for each window size of `sizes`. -/
def physicsN (sizes : List (Int × Int)) (p : Particle α) : Particle α :=
  sizes.foldl (fun q wh => physics wh.1 wh.2 q) p

end Ticks

/-! ## The particle list of `driver.cpp` -/

/-- Function `setParticleCount` of `driver.cpp`, lines 152-170 (script side):
```
const quota = count - particles.length;
if (quota < 0) { particles.splice(0, -quota); }
else { for (let i = 0; i < count; ++i) { particles.push(createParticle(...)); } }
```
The list is mutated in place; the result is the list afterwards.  `fresh i` is the particle
that `createParticle` returns in iteration `i` (its arguments come from the random source
and the canvas size). -/
def DriverCpp.setParticleCount {P : Type} (fresh : Nat → P) (particles : List P)
    (count : Nat) : List P :=
  let quota : Int := (count : Int) - (particles.length : Int)
  if quota < 0 then
    particles.drop (-quota).toNat
  else
    (List.range count).foldl (fun ps i => ps ++ [fresh i]) particles

/-! ## The canvas library (`lib/canvas.c`) -/

/-- The fields of `struct CanvasRenderingContext2D` that `createContext` sets to a value
other than `NULL` or a fixed function pointer: `privado.canvas` (the address of the owning
canvas) and `privado.contextType`. -/
structure CanvasRenderingContext2D where
  canvas : Nat
  contextType : String
  deriving DecidableEq, Repr

/-- The data fields of `struct HTMLCanvasElement`: `privado.ctx` (`none` is `NULL`,
`some a` the address of a context) and `privado.id`. -/
structure HTMLCanvasElement where
  ctx : Option Nat
  id : String
  deriving DecidableEq, Repr

/-- The objects allocated with `malloc`.  The address of an object is its position in its
list, so an allocation appends and returns the previous length. -/
structure Heap where
  canvases : List HTMLCanvasElement
  contexts : List CanvasRenderingContext2D
  deriving DecidableEq, Repr

/-- Function `createCanvas` of `canvas.c`, lines 51-71: allocates a canvas with
`privado.ctx = NULL` and a copy of `id`, and returns its address.  (The DOM element
that the script side creates is not modelled.) -/
def createCanvas (h : Heap) (id : String) : Heap × Nat :=
  ({ h with canvases := h.canvases ++ [{ ctx := none, id := id }] }, h.canvases.length)

/-- Function `createContext` of `canvas.c`, lines 471-535:
`if (strcmp(contextType, "2d") != 0) return NULL;` and otherwise a newly allocated context
whose `privado.canvas` is `canvas` and whose `privado.contextType` is a copy of
`contextType`. -/
def createContext (h : Heap) (canvas : Nat) (contextType : String) : Heap × Option Nat :=
  if contextType ≠ "2d" then (h, none)
  else
    ({ h with contexts := h.contexts ++ [{ canvas := canvas, contextType := contextType }] },
      some h.contexts.length)

/-- Function `canvas_getContext` of `canvas.c`, lines 43-48 (the `getContext` member):
```
if (!that->privado.ctx)
    that->privado.ctx = createContext(that, contextType);
return that->privado.ctx;
```
An address `that` at which no canvas is allocated gives `NULL` and changes nothing. -/
def canvas_getContext (h : Heap) (that : Nat) (contextType : String) : Heap × Option Nat :=
  match h.canvases[that]? with
  | none => (h, none)
  | some c =>
    match c.ctx with
    | none =>
      let r := createContext h that contextType
      ({ r.1 with canvases := r.1.canvases.set that { c with ctx := r.2 } }, r.2)
    | some a => (h, some a)

/-- Function `context2d_getCanvas` of `canvas.c`, lines 465-468: `return that->privado.canvas;`
(`none` when no context is allocated at `that`). -/
def context2d_getCanvas (h : Heap) (that : Nat) : Option Nat :=
  (h.contexts[that]?).map fun c => c.canvas

/-- The value of `privado.ctx` of the canvas at address `c` (`none` also when no canvas is
allocated there). -/
def ctxOf (h : Heap) (c : Nat) : Option Nat :=
  (h.canvases[c]?).bind fun e => e.ctx

/-- The heap after a sequence of `getContext` calls, each given as the address of the
canvas and the requested type. -/
def getContexts (h : Heap) (reqs : List (Nat × String)) : Heap :=
  reqs.foldl (fun g r => (canvas_getContext g r.1 r.2).1) h

/-! ## The colour text of `line_between` -/

/-- The size of the buffer of `line_between`, line 69: `char color[20 + 8 + 1 + 1];` -/
def COLOR_SIZE : Nat := 20 + 8 + 1 + 1

/-- The six decimals that `%f` prints for `n` millionths, most significant first. -/
def fmtFrac (n : Nat) : List Char :=
  (List.range 6).map fun i => Nat.digitChar (n / 10 ^ (5 - i) % 10)

/-- The text that `%f` prints for a non-negative value of `m` millionths: the decimal
digits of the integer part, a point, and six decimals. -/
def fmtMicro (m : Nat) : String :=
  String.mk (Nat.toDigits 10 (m / 10 ^ 6) ++ '.' :: fmtFrac (m % 10 ^ 6))

/-- The conversion `%f` of `sprintf` (precision 6) on a real number: the value is rounded
to the nearest millionth and printed without exponent, with a minus sign when negative.
(A tie is rounded up here; infinities and NaN are outside the model.) -/
noncomputable def printf_f (x : ℝ) : String :=
  if x < 0 then "-" ++ fmtMicro ⌊(-x) * 10 ^ 6 + 1 / 2⌋₊
  else fmtMicro ⌊x * 10 ^ 6 + 1 / 2⌋₊

/-- Line 70 of `driver.c`: `sprintf(color, "rgba(229, 227, 223, %f)", opacity);`, the text
written into `color` (without its terminating zero byte). -/
noncomputable def colorText (opacity : ℝ) : String :=
  "rgba(229, 227, 223, " ++ printf_f opacity ++ ")"

/-- The text that `line_between` (lines 63-70) writes into its buffer `color` for a pair of
points; `none` when the test `dist < THRESHOLD` fails and nothing is written. -/
noncomputable def line_between_color (x1 y1 x2 y2 : ℝ) : Option String :=
  let dist := distance x1 y1 x2 y2
  if dist < THRESHOLD then
    let opacity := (THRESHOLD / dist) - 1
    some (colorText opacity)
  else none

/-! ## Generation of the particles -/

/-- The body of the generation loop of `main`, lines 145-148, for particle `k`:
`particles[i].x = random_x(); particles[i].y = random_y(); particles[i].vx = random_speed();
particles[i].vy = random_speed();`.  `r` is the sequence of results of the successive
`rand()` calls; each particle uses six of them. -/
noncomputable def generateParticle (width height : Int) (RAND_MAX : Nat) (r : Nat → Nat)
    (k : Nat) : Particle ℝ :=
  { x := random_x width RAND_MAX (r (6 * k)),
    y := random_y height RAND_MAX (r (6 * k + 1)),
    vx := random_speed RAND_MAX (r (6 * k + 2)) (r (6 * k + 3)),
    vy := random_speed RAND_MAX (r (6 * k + 4)) (r (6 * k + 5)) }

/-- The generation loop of `main`, lines 144-149, for `n` particles on a canvas of size
`width` x `height`. -/
noncomputable def generate (n : Nat) (width height : Int) (RAND_MAX : Nat) (r : Nat → Nat) :
    List (Particle ℝ) :=
  (List.range n).map (generateParticle width height RAND_MAX r)

/-! ## Theorems: the physics update -/

section PhysicsLemmas

variable {α : Type} [LinearOrderedField α]

lemma physics_x (w h : Int) (p : Particle α) :
    (physics w h p).x =
      if p.x + p.vx < 3 then 3
      else if p.x + p.vx > (w : α) - 3 then (w : α) - 3 else p.x + p.vx := by
  unfold physics
  simp only [PARTICLE_SIZE]
  push_cast
  split_ifs <;> rfl

lemma physics_vx (w h : Int) (p : Particle α) :
    (physics w h p).vx =
      if p.x + p.vx < 3 then -p.vx
      else if p.x + p.vx > (w : α) - 3 then -p.vx else p.vx := by
  unfold physics
  simp only [PARTICLE_SIZE]
  push_cast
  split_ifs <;> simp

lemma physics_y (w h : Int) (p : Particle α) :
    (physics w h p).y =
      if p.y + p.vy < 3 then 3
      else if p.y + p.vy > (h : α) - 3 then (h : α) - 3 else p.y + p.vy := by
  unfold physics
  simp only [PARTICLE_SIZE]
  push_cast
  split_ifs <;> rfl

lemma physics_vy (w h : Int) (p : Particle α) :
    (physics w h p).vy =
      if p.y + p.vy < 3 then -p.vy
      else if p.y + p.vy > (h : α) - 3 then -p.vy else p.vy := by
  unfold physics
  simp only [PARTICLE_SIZE]
  push_cast
  split_ifs <;> simp

end PhysicsLemmas

/-- C1 (counterexample). On a surface of width 4 the particle `(x, y, vx, vy) =
(0, 50, 0, 0)` is clamped to `x = 3` by the left-edge branch, and `3` is above
`width - PARTICLE_SIZE = 1`: the bound `x ≤ width - PARTICLE_SIZE` fails after the tick. -/
theorem physics_bounds_fail_narrow :
    (physics 4 600 (⟨0, 50, 0, 0⟩ : Particle ℚ)).x = 3 ∧
      ¬ ((PARTICLE_SIZE : ℚ) ≤ (physics 4 600 (⟨0, 50, 0, 0⟩ : Particle ℚ)).x ∧
          (physics 4 600 (⟨0, 50, 0, 0⟩ : Particle ℚ)).x ≤ ((4 : Int) : ℚ) - (PARTICLE_SIZE : ℚ)) := by
  rw [physics_x]
  norm_num [PARTICLE_SIZE]

/-- C1 (amended). For every particle state and every surface size with `width ≥ 6` and
`height ≥ 6`, after the physics update of one tick the particle satisfies
`PARTICLE_SIZE ≤ x ≤ width - PARTICLE_SIZE` and `PARTICLE_SIZE ≤ y ≤ height -
PARTICLE_SIZE`, whatever its position was before the tick. -/
theorem physics_bounds {α : Type} [LinearOrderedField α] (w h : Int) (p : Particle α)
    (hw : 6 ≤ w) (hh : 6 ≤ h) :
    ((PARTICLE_SIZE : α) ≤ (physics w h p).x ∧
        (physics w h p).x ≤ (w : α) - (PARTICLE_SIZE : α)) ∧
      ((PARTICLE_SIZE : α) ≤ (physics w h p).y ∧
        (physics w h p).y ≤ (h : α) - (PARTICLE_SIZE : α)) := by
  have hw' : (6 : α) ≤ (w : α) := by exact_mod_cast hw
  have hh' : (6 : α) ≤ (h : α) := by exact_mod_cast hh
  rw [physics_x, physics_y]
  simp only [PARTICLE_SIZE]
  push_cast
  refine ⟨⟨?_, ?_⟩, ⟨?_, ?_⟩⟩ <;> split_ifs <;> linarith

/-- C1 (witness): the particle `(-40, 900, -2, 5)`, far outside an 800 x 600 surface, is
inside it after one tick. -/
theorem physics_bounds_witness :
    ((PARTICLE_SIZE : ℚ) ≤ (physics 800 600 (⟨-40, 900, -2, 5⟩ : Particle ℚ)).x ∧
        (physics 800 600 (⟨-40, 900, -2, 5⟩ : Particle ℚ)).x
          ≤ ((800 : Int) : ℚ) - (PARTICLE_SIZE : ℚ)) ∧
      ((PARTICLE_SIZE : ℚ) ≤ (physics 800 600 (⟨-40, 900, -2, 5⟩ : Particle ℚ)).y ∧
        (physics 800 600 (⟨-40, 900, -2, 5⟩ : Particle ℚ)).y
          ≤ ((600 : Int) : ℚ) - (PARTICLE_SIZE : ℚ)) :=
  physics_bounds 800 600 ⟨-40, 900, -2, 5⟩ (by decide) (by decide)

/-- C2. The physics update of `animate` is, on each axis, the rule of the specification
(`axisRule`): the new `(x, vx)` is `axisRule width x vx` and the new `(y, vy)` is
`axisRule height y vy`.  The particle `(x=1, y=50, vx=-2, vy=0)` on a surface of width 800
has `x = 3` and `vx = 2` after one update. -/
theorem physics_eq_axisRule {α : Type} [LinearOrderedField α] (w h : Int) (p : Particle α) :
    (((physics w h p).x, (physics w h p).vx) = axisRule w p.x p.vx ∧
      ((physics w h p).y, (physics w h p).vy) = axisRule h p.y p.vy) ∧
    ((physics 800 h (⟨1, 50, -2, 0⟩ : Particle α)).x = 3 ∧
      (physics 800 h (⟨1, 50, -2, 0⟩ : Particle α)).vx = 2) := by
  refine ⟨⟨?_, ?_⟩, ?_, ?_⟩
  · rw [physics_x, physics_vx]
    unfold axisRule
    split_ifs <;> rfl
  · rw [physics_y, physics_vy]
    unfold axisRule
    split_ifs <;> rfl
  · rw [physics_x]
    norm_num
  · rw [physics_vx]
    norm_num

/-- C3. The two axes of the physics update are independent.  `vx` is negated exactly
when `x + vx` is outside `[3, width - 3]` and is unchanged otherwise; `vy` likewise with
`height`.  The new `x` and `vx` are the same for every other `y`, `vy` and height, and the
new `y` and `vy` are the same for every other `x`, `vx` and width.  When both axes are
outside their interval, both velocities are negated in the same update. -/
theorem physics_axes_independent {α : Type} [LinearOrderedField α] (w h : Int)
    (p : Particle α) :
    ((physics w h p).vx =
        if p.x + p.vx < 3 ∨ (w : α) - 3 < p.x + p.vx then -p.vx else p.vx) ∧
    ((physics w h p).vy =
        if p.y + p.vy < 3 ∨ (h : α) - 3 < p.y + p.vy then -p.vy else p.vy) ∧
    (∀ (h2 : Int) (y2 vy2 : α),
        (physics w h2 ⟨p.x, y2, p.vx, vy2⟩).x = (physics w h p).x ∧
        (physics w h2 ⟨p.x, y2, p.vx, vy2⟩).vx = (physics w h p).vx) ∧
    (∀ (w2 : Int) (x2 vx2 : α),
        (physics w2 h ⟨x2, p.y, vx2, p.vy⟩).y = (physics w h p).y ∧
        (physics w2 h ⟨x2, p.y, vx2, p.vy⟩).vy = (physics w h p).vy) ∧
    ((p.x + p.vx < 3 ∨ (w : α) - 3 < p.x + p.vx) →
      (p.y + p.vy < 3 ∨ (h : α) - 3 < p.y + p.vy) →
      (physics w h p).vx = -p.vx ∧ (physics w h p).vy = -p.vy) := by
  have hx : (physics w h p).vx =
      if p.x + p.vx < 3 ∨ (w : α) - 3 < p.x + p.vx then -p.vx else p.vx := by
    rw [physics_vx]
    by_cases h1 : p.x + p.vx < 3
    · simp [h1]
    · by_cases h2 : (w : α) - 3 < p.x + p.vx <;> simp [h1, h2]
  have hy : (physics w h p).vy =
      if p.y + p.vy < 3 ∨ (h : α) - 3 < p.y + p.vy then -p.vy else p.vy := by
    rw [physics_vy]
    by_cases h1 : p.y + p.vy < 3
    · simp [h1]
    · by_cases h2 : (h : α) - 3 < p.y + p.vy <;> simp [h1, h2]
  refine ⟨hx, hy, ?_, ?_, ?_⟩
  · intro h2 y2 vy2
    simp only [physics_x, physics_vx, and_self]
  · intro w2 x2 vx2
    simp only [physics_y, physics_vy, and_self]
  · intro ox oy
    rw [hx, hy, if_pos ox, if_pos oy]
    exact ⟨rfl, rfl⟩

/-- C3 (witness): the particle `(1, 2, -2, -1)` heads into the top-left corner of an
800 x 600 surface and has both velocities negated. -/
theorem physics_axes_independent_witness :
    (physics 800 600 (⟨1, 2, -2, -1⟩ : Particle ℚ)).vx = 2 ∧
      (physics 800 600 (⟨1, 2, -2, -1⟩ : Particle ℚ)).vy = 1 := by
  have key := (physics_axes_independent 800 600 (⟨1, 2, -2, -1⟩ : Particle ℚ)).2.2.2.2
    (by norm_num) (by norm_num)
  simpa using key

/-! ## Theorems: the loop of `animate` -/

section LoopLemmas

variable {α : Type} [LinearOrderedField α]

lemma animateLoop_zero (n : Nat) (w h : Int) (ps : List (Particle α)) :
    animateLoop n w h ps 0 = ⟨ps, []⟩ := rfl

lemma animateLoop_succ (n : Nat) (w h : Int) (ps : List (Particle α)) (k : Nat) :
    animateLoop n w h ps (k + 1) = animateBody n w h (animateLoop n w h ps k) k := by
  unfold animateLoop
  rw [List.range_succ, List.foldl_append]
  rfl

lemma particleAt_set_ne (ps : List (Particle α)) (i m : Nat) (q : Particle α)
    (hne : i ≠ m) : particleAt (ps.set i q) m = particleAt ps m := by
  unfold particleAt
  rw [List.getD_eq_getElem?_getD, List.getD_eq_getElem?_getD, List.getElem?_set_ne hne]

lemma particleAt_set_eq (ps : List (Particle α)) (i : Nat) (q : Particle α)
    (hi : i < ps.length) : particleAt (ps.set i q) i = q := by
  unfold particleAt
  rw [List.getD_eq_getElem?_getD, List.getElem?_set]
  simp [hi]

/-- Iterations `0 .. k-1` of the outer loop leave every entry at an index `≥ k` as it
was when the tick began. -/
lemma animateLoop_untouched (n : Nat) (w h : Int) (ps : List (Particle α)) (k : Nat) :
    ∀ m, k ≤ m → particleAt (animateLoop n w h ps k).particles m = particleAt ps m := by
  induction k with
  | zero => intro m _; rfl
  | succ k ih =>
    intro m hm
    rw [animateLoop_succ]
    show particleAt ((animateLoop n w h ps k).particles.set k _) m = _
    rw [particleAt_set_ne _ _ _ _ (by omega)]
    exact ih m (by omega)

lemma animateLoop_length (n : Nat) (w h : Int) (ps : List (Particle α)) (k : Nat) :
    (animateLoop n w h ps k).particles.length = ps.length := by
  induction k with
  | zero => rfl
  | succ k ih =>
    rw [animateLoop_succ]
    show ((animateLoop n w h ps k).particles.set k _).length = _
    rw [List.length_set, ih]

/-- Iterations `0 .. k-1` have replaced each entry at an index `< k` by its physics
update. -/
lemma animateLoop_updated (n : Nat) (w h : Int) (ps : List (Particle α)) (k : Nat) :
    ∀ m, m < k → m < ps.length →
      particleAt (animateLoop n w h ps k).particles m = physics w h (particleAt ps m) := by
  induction k with
  | zero => intro m hm; omega
  | succ k ih =>
    intro m hm hlen
    rw [animateLoop_succ]
    show particleAt ((animateLoop n w h ps k).particles.set k _) m = _
    by_cases hmk : m = k
    · subst hmk
      rw [particleAt_set_eq _ _ _ (by rw [animateLoop_length]; exact hlen),
        animateLoop_untouched n w h ps m m le_rfl]
    · rw [particleAt_set_ne _ _ _ _ (fun e => hmk e.symm)]
      exact ih m (by omega) hlen

lemma lineCalls_congr (n : Nat) (ps qs : List (Particle α)) (i : Nat)
    (hpq : ∀ m, i ≤ m → particleAt qs m = particleAt ps m) :
    lineCalls n qs i = lineCalls n ps i := by
  unfold lineCalls
  apply List.map_congr_left
  intro j hj
  rw [List.mem_range'_1] at hj
  rw [hpq i le_rfl, hpq j (by omega)]

/-- The calls issued by the first `k` iterations are the drawing of the first `k` rows of
the array as it was when the tick began. -/
lemma animateLoop_calls (n : Nat) (w h : Int) (ps : List (Particle α)) (k : Nat) :
    (animateLoop n w h ps k).calls =
      (List.range k).flatMap fun i =>
        Call.draw_particle i (particleAt ps i).x (particleAt ps i).y :: lineCalls n ps i := by
  induction k with
  | zero => rfl
  | succ k ih =>
    rw [animateLoop_succ, List.range_succ, List.flatMap_append, List.flatMap_singleton]
    show (animateLoop n w h ps k).calls ++ [_] ++ lineCalls n _ k = _
    rw [ih, lineCalls_congr n ps _ k (fun m hm => animateLoop_untouched n w h ps k m hm),
      animateLoop_untouched n w h ps k k le_rfl, List.append_assoc]
    rfl

lemma animate_calls (n : Nat) (w h : Int) (ps : List (Particle α)) :
    (animate n w h ps).calls = drawingOf n ps :=
  animateLoop_calls n w h ps n

end LoopLemmas

lemma linePairs_append {α : Type} (a b : List (Call α)) :
    linePairs (a ++ b) = linePairs a ++ linePairs b := by
  induction a with
  | nil => rfl
  | cons c cs ih =>
    cases c with
    | draw_particle i x y => simpa [linePairs] using ih
    | line_between i j x1 y1 x2 y2 => simpa [linePairs] using ih

section PairLemmas

variable {α : Type} [LinearOrderedField α]

lemma linePairs_lineCalls_aux (ps : List (Particle α)) (i : Nat) (js : List Nat) :
    linePairs (js.map fun j => Call.line_between i j (particleAt ps i).x (particleAt ps i).y
      (particleAt ps j).x (particleAt ps j).y) = js.map (Prod.mk i) := by
  induction js with
  | nil => rfl
  | cons j js ih => simp only [List.map_cons, linePairs, ih]

lemma linePairs_lineCalls (n : Nat) (ps : List (Particle α)) (i : Nat) :
    linePairs (lineCalls n ps i) = (List.range' (i + 1) (n - (i + 1))).map (Prod.mk i) :=
  linePairs_lineCalls_aux ps i _

lemma linePairs_rows (n : Nat) (ps : List (Particle α)) (is : List Nat) :
    linePairs (is.flatMap fun i =>
        Call.draw_particle i (particleAt ps i).x (particleAt ps i).y :: lineCalls n ps i) =
      is.flatMap fun i => (List.range' (i + 1) (n - (i + 1))).map (Prod.mk i) := by
  induction is with
  | nil => rfl
  | cons i is ih =>
    rw [List.flatMap_cons, List.flatMap_cons, List.cons_append]
    show linePairs (lineCalls n ps i ++ _) = _
    rw [linePairs_append, ih, linePairs_lineCalls]

lemma linePairs_animate (n : Nat) (w h : Int) (ps : List (Particle α)) :
    linePairs (animate n w h ps).calls =
      (List.range n).flatMap fun i => (List.range' (i + 1) (n - (i + 1))).map (Prod.mk i) := by
  rw [animate_calls]
  exact linePairs_rows n ps _

end PairLemmas

lemma count_le_one_of_nodup {β : Type} [BEq β] [LawfulBEq β] (a : β) :
    ∀ l : List β, l.Nodup → l.count a ≤ 1
  | [], _ => by simp
  | b :: l, hl => by
    rw [List.nodup_cons] at hl
    rw [List.count_cons]
    by_cases hba : (b == a) = true
    · have hab : a = b := (eq_of_beq hba).symm
      subst hab
      rw [List.count_eq_zero_of_not_mem hl.1]
      simp
    · have hle := count_le_one_of_nodup a l hl.2
      simp [hba, hle]

/-- The index pairs of the double loop `for i < n, for i < j < n`, in loop order. -/
lemma mem_loopPairs (n i j : Nat) :
    (i, j) ∈ ((List.range n).flatMap fun i =>
        (List.range' (i + 1) (n - (i + 1))).map (Prod.mk i)) ↔ i < j ∧ j < n := by
  simp only [List.mem_flatMap, List.mem_range, List.mem_map, List.mem_range'_1, Prod.mk.injEq]
  constructor
  · rintro ⟨a, _, b, ⟨hb1, hb2⟩, rfl, rfl⟩
    omega
  · rintro ⟨hij, hjn⟩
    exact ⟨i, by omega, j, ⟨by omega, by omega⟩, rfl, rfl⟩

lemma nodup_loopPairs (n : Nat) :
    ((List.range n).flatMap fun i =>
        (List.range' (i + 1) (n - (i + 1))).map (Prod.mk i)).Nodup := by
  rw [List.nodup_flatMap]
  refine ⟨fun i _ => ?_, ?_⟩
  · exact (List.nodup_range' _ _).map (fun a b hab => (Prod.mk.inj hab).2)
  · refine (List.nodup_range n).pairwise_of_forall_ne ?_
    intro a _ b _ hab
    show List.Disjoint _ _
    intro x hxa hxb
    rw [List.mem_map] at hxa hxb
    obtain ⟨_, _, rfl⟩ := hxa
    obtain ⟨_, _, hx⟩ := hxb
    exact hab (Prod.mk.inj hx).1.symm

lemma length_loopPairs_aux (n k : Nat) (hk : k ≤ n) :
    2 * ((List.range k).flatMap fun i =>
        (List.range' (i + 1) (n - (i + 1))).map (Prod.mk i)).length + k * (k + 1)
      = 2 * k * n := by
  induction k with
  | zero => simp
  | succ k ih =>
    have ih := ih (by omega)
    rw [List.range_succ, List.flatMap_append, List.length_append, List.flatMap_singleton,
      List.length_map, List.length_range']
    obtain ⟨m, rfl⟩ := Nat.exists_eq_add_of_le hk
    have e : k + 1 + m - (k + 1) = m := by omega
    rw [e]
    nlinarith [ih]

lemma length_loopPairs (n : Nat) :
    ((List.range n).flatMap fun i =>
        (List.range' (i + 1) (n - (i + 1))).map (Prod.mk i)).length = n * (n - 1) / 2 := by
  have key := length_loopPairs_aux n n le_rfl
  cases n with
  | zero => simp
  | succ m =>
    have e : (m + 1) * (m + 1 - 1) = (m + 1) * m := by simp
    rw [e]
    apply (Nat.div_eq_of_eq_mul_right (by decide) _).symm
    nlinarith [key]

/-- C4. In one call of `animate` every `draw_particle` and every `line_between` call
receives the coordinates the particles had when the tick began: the recorded calls are
exactly the drawing of the initial array (`drawingOf`), and each single call carries the
initial coordinates of the particles at its call-site indices, although the physics update
of particle `i` is written back inside the same loop iteration. -/
theorem animate_draws_tick_start {α : Type} [LinearOrderedField α] (n : Nat) (w h : Int)
    (ps : List (Particle α)) :
    (animate n w h ps).calls = drawingOf n ps ∧
      ∀ c ∈ (animate n w h ps).calls, drawnFrom ps c := by
  refine ⟨animate_calls n w h ps, ?_⟩
  rw [animate_calls]
  intro c hc
  unfold drawingOf at hc
  rw [List.mem_flatMap] at hc
  obtain ⟨i, _, hc⟩ := hc
  rw [List.mem_cons] at hc
  rcases hc with rfl | hc
  · exact ⟨rfl, rfl⟩
  · unfold lineCalls at hc
    rw [List.mem_map] at hc
    obtain ⟨j, _, rfl⟩ := hc
    exact ⟨rfl, rfl, rfl, rfl⟩

/-- C4 (witness): three particles on an 800 x 600 surface.  All three are moved by the
tick (the first and the last bounce), and the calls of the tick are the drawing of the
array as it was before the tick. -/
theorem animate_draws_tick_start_witness :
    (animate 3 800 600
        ([⟨1, 50, -2, 0⟩, ⟨10, 10, 1, 1⟩, ⟨799, 5, 3, -4⟩] : List (Particle ℚ))).calls
      = [Call.draw_particle 0 1 50, Call.line_between 0 1 1 50 10 10,
          Call.line_between 0 2 1 50 799 5, Call.draw_particle 1 10 10,
          Call.line_between 1 2 10 10 799 5, Call.draw_particle 2 799 5] ∧
    (animate 3 800 600
        ([⟨1, 50, -2, 0⟩, ⟨10, 10, 1, 1⟩, ⟨799, 5, 3, -4⟩] : List (Particle ℚ))).particles
      = [⟨3, 50, 2, 0⟩, ⟨11, 11, 1, 1⟩, ⟨797, 3, -3, 4⟩] := by
  refine ⟨?_, ?_⟩
  · rw [(animate_draws_tick_start 3 800 600
      ([⟨1, 50, -2, 0⟩, ⟨10, 10, 1, 1⟩, ⟨799, 5, 3, -4⟩] : List (Particle ℚ))).1]
    simp [drawingOf, lineCalls, particleAt, List.range_succ, List.range']
  · norm_num [animate, animateLoop, animateBody, physics, particleAt, lineCalls,
      List.range_succ, PARTICLE_SIZE]

/-- C5. In one call of `animate` over `n` particles, `line_between` is called exactly
once for every index pair `(i, j)` with `i < j < n` and never for any other pair (so never
with `i = j`, and never for both `(i, j)` and `(j, i)`); the number of calls is
`n * (n - 1) / 2`, which is 6555 for `PARTICLE_COUNT = 115`. -/
theorem animate_pairs_once {α : Type} [LinearOrderedField α] (n : Nat) (w h : Int)
    (ps : List (Particle α)) :
    (∀ i j : Nat, (linePairs (animate n w h ps).calls).count (i, j)
        = if i < j ∧ j < n then 1 else 0) ∧
      (linePairs (animate n w h ps).calls).length = n * (n - 1) / 2 ∧
      (linePairs (animate PARTICLE_COUNT w h ps).calls).length = 6555 := by
  refine ⟨?_, ?_, ?_⟩
  · intro i j
    rw [linePairs_animate]
    split_ifs with hij
    · have hle := count_le_one_of_nodup (i, j) _ (nodup_loopPairs n)
      have hpos := List.count_pos_iff.2 ((mem_loopPairs n i j).2 hij)
      omega
    · exact List.count_eq_zero_of_not_mem (fun hm => hij ((mem_loopPairs n i j).1 hm))
  · rw [linePairs_animate, length_loopPairs]
  · rw [linePairs_animate, length_loopPairs]
    rfl

/-! ## Theorems: distance and `line_between` -/

lemma min_eq_lattice_min {α : Type} [LinearOrderedField α] (a b : α) :
    min a b = Min.min a b := by
  unfold min
  split_ifs with hab
  · exact (min_eq_left hab.le).symm
  · exact (min_eq_right (not_lt.1 hab)).symm

lemma distance_nonneg (x1 y1 x2 y2 : ℝ) : 0 ≤ distance x1 y1 x2 y2 :=
  Real.sqrt_nonneg _

lemma line_between_of_lt (x1 y1 x2 y2 : ℝ) (hlt : distance x1 y1 x2 y2 < 250) :
    line_between x1 y1 x2 y2 =
      [CtxCall.setLineWidth (min (250 / distance x1 y1 x2 y2 - 1) 3),
       CtxCall.setStrokeStyle (250 / distance x1 y1 x2 y2 - 1),
       CtxCall.beginPath, CtxCall.moveTo x1 y1, CtxCall.lineTo x2 y2, CtxCall.stroke] := by
  unfold line_between
  simp only [THRESHOLD, PARTICLE_SIZE]
  rw [if_pos hlt]
  norm_num

lemma line_between_of_ge (x1 y1 x2 y2 : ℝ) (hge : 250 ≤ distance x1 y1 x2 y2) :
    line_between x1 y1 x2 y2 = [] := by
  unfold line_between
  simp only [THRESHOLD]
  rw [if_neg (not_lt.2 hge)]

lemma distance_horizontal (a : ℝ) (ha : 0 ≤ a) : distance 0 0 a 0 = a := by
  unfold distance
  have e : ((0 : ℝ) - a) ^ 2 + ((0 : ℝ) - 0) ^ 2 = a ^ 2 := by ring
  rw [e, Real.sqrt_sq ha]

/-- C6. Function `line_between` issues a stroke if and only if the Euclidean distance of the
two points is strictly below `THRESHOLD = 250`; when the distance is 250 or more
(250 exactly included) it makes no context call at all, so it draws nothing and sets no
style.  The pair `(0,0)`-`(100,0)` is drawn, the pairs `(0,0)`-`(300,0)` and
`(0,0)`-`(250,0)` are not. -/
theorem line_between_strokes_iff (x1 y1 x2 y2 : ℝ) :
    (strokes (line_between x1 y1 x2 y2) = true
        ↔ Real.sqrt ((x1 - x2) ^ 2 + (y1 - y2) ^ 2) < 250) ∧
      (line_between x1 y1 x2 y2 = []
        ↔ 250 ≤ Real.sqrt ((x1 - x2) ^ 2 + (y1 - y2) ^ 2)) ∧
      strokes (line_between 0 0 100 0) = true ∧
      line_between 0 0 300 0 = [] ∧
      line_between 0 0 250 0 = [] := by
  have hd : ∀ a b c d : ℝ, Real.sqrt ((a - c) ^ 2 + (b - d) ^ 2) = distance a b c d :=
    fun _ _ _ _ => rfl
  refine ⟨?_, ?_, ?_, ?_, ?_⟩
  · rw [hd]
    constructor
    · intro hs
      by_contra hnot
      rw [line_between_of_ge _ _ _ _ (not_lt.1 hnot)] at hs
      simp [strokes] at hs
    · intro hlt
      rw [line_between_of_lt _ _ _ _ hlt]
      rfl
  · rw [hd]
    constructor
    · intro hnil
      by_contra hnot
      rw [line_between_of_lt _ _ _ _ (not_le.1 hnot)] at hnil
      simp at hnil
    · exact line_between_of_ge _ _ _ _
  · rw [line_between_of_lt _ _ _ _ (by rw [distance_horizontal 100 (by norm_num)]; norm_num)]
    rfl
  · exact line_between_of_ge _ _ _ _ (by rw [distance_horizontal 300 (by norm_num)]; norm_num)
  · exact line_between_of_ge _ _ _ _ (by rw [distance_horizontal 250 (by norm_num)])

/-- C7. For two points at Euclidean distance `d` with `0 < d < 250`, `line_between` sets
the stroke alpha to `250 / d - 1` and the line width to the smaller of that opacity and
`PARTICLE_SIZE = 3`; the width is at most 3 and at most the opacity.  (The hypothesis
`0 < d` keeps the division away from `d = 0`, where division of reals and of doubles
differ.) -/
theorem line_between_opacity_width (x1 y1 x2 y2 : ℝ)
    (_hpos : 0 < Real.sqrt ((x1 - x2) ^ 2 + (y1 - y2) ^ 2))
    (hlt : Real.sqrt ((x1 - x2) ^ 2 + (y1 - y2) ^ 2) < 250) :
    alphaOf (line_between x1 y1 x2 y2)
        = some (250 / Real.sqrt ((x1 - x2) ^ 2 + (y1 - y2) ^ 2) - 1) ∧
      widthOf (line_between x1 y1 x2 y2)
        = some (Min.min (250 / Real.sqrt ((x1 - x2) ^ 2 + (y1 - y2) ^ 2) - 1) 3) ∧
      Min.min (250 / Real.sqrt ((x1 - x2) ^ 2 + (y1 - y2) ^ 2) - 1) 3 ≤ 3 ∧
      Min.min (250 / Real.sqrt ((x1 - x2) ^ 2 + (y1 - y2) ^ 2) - 1) 3
        ≤ 250 / Real.sqrt ((x1 - x2) ^ 2 + (y1 - y2) ^ 2) - 1 := by
  have hlt2 : distance x1 y1 x2 y2 < 250 := hlt
  refine ⟨?_, ?_, min_le_right _ _, min_le_left _ _⟩
  · rw [line_between_of_lt _ _ _ _ hlt2]
    rfl
  · rw [line_between_of_lt _ _ _ _ hlt2, min_eq_lattice_min]
    rfl

/-- C7 (witness): the points `(0,0)` and `(100,0)` give opacity 1.5 and line width 1.5. -/
theorem line_between_opacity_width_witness :
    alphaOf (line_between 0 0 100 0) = some 1.5 ∧
      widthOf (line_between 0 0 100 0) = some 1.5 := by
  have hd : Real.sqrt (((0 : ℝ) - 100) ^ 2 + ((0 : ℝ) - 0) ^ 2) = 100 :=
    distance_horizontal 100 (by norm_num)
  have key := line_between_opacity_width 0 0 100 0 (by rw [hd]; norm_num)
    (by rw [hd]; norm_num)
  rw [hd] at key
  refine ⟨?_, ?_⟩
  · rw [key.1]; norm_num
  · rw [key.2.1]; norm_num

/-- C8. The opacity that `line_between` sets is strictly decreasing in the distance on
`(0, THRESHOLD)` and strictly positive there: for points `a1`-`a2` at distance `d1` and
points `b1`-`b2` at distance `d2` with `0 < d1 < d2 < 250`, the two alphas are
`250 / d1 - 1` and `250 / d2 - 1`, the first is strictly larger than the second, and the
second is strictly positive. -/
theorem line_between_opacity_decreasing (ax1 ay1 ax2 ay2 bx1 by1 bx2 by2 : ℝ)
    (h0 : 0 < distance ax1 ay1 ax2 ay2)
    (h12 : distance ax1 ay1 ax2 ay2 < distance bx1 by1 bx2 by2)
    (hT : distance bx1 by1 bx2 by2 < THRESHOLD) :
    alphaOf (line_between ax1 ay1 ax2 ay2) = some (THRESHOLD / distance ax1 ay1 ax2 ay2 - 1) ∧
      alphaOf (line_between bx1 by1 bx2 by2)
        = some (THRESHOLD / distance bx1 by1 bx2 by2 - 1) ∧
      THRESHOLD / distance bx1 by1 bx2 by2 - 1 < THRESHOLD / distance ax1 ay1 ax2 ay2 - 1 ∧
      0 < THRESHOLD / distance bx1 by1 bx2 by2 - 1 := by
  unfold THRESHOLD at hT ⊢
  have hb0 : 0 < distance bx1 by1 bx2 by2 := lt_trans h0 h12
  refine ⟨?_, ?_, ?_, ?_⟩
  · rw [line_between_of_lt _ _ _ _ (lt_trans h12 hT)]
    rfl
  · rw [line_between_of_lt _ _ _ _ hT]
    rfl
  · have hdiv : (250 : ℝ) / distance bx1 by1 bx2 by2 < 250 / distance ax1 ay1 ax2 ay2 :=
      div_lt_div_of_pos_left (by norm_num) h0 h12
    linarith
  · have hone : (1 : ℝ) < 250 / distance bx1 by1 bx2 by2 := by
      rw [lt_div_iff₀ hb0]
      linarith
    linarith

/-- C8 (witness): `(0,0)`-`(100,0)` has opacity 1.5, `(0,0)`-`(200,0)` has opacity 0.25. -/
theorem line_between_opacity_decreasing_witness :
    alphaOf (line_between 0 0 100 0) = some 1.5 ∧
      alphaOf (line_between 0 0 200 0) = some 0.25 := by
  have h1 : distance 0 0 100 0 = 100 := distance_horizontal 100 (by norm_num)
  have h2 : distance 0 0 200 0 = 200 := distance_horizontal 200 (by norm_num)
  have key := line_between_opacity_decreasing 0 0 100 0 0 0 200 0
    (by rw [h1]; norm_num) (by rw [h1, h2]; norm_num) (by rw [h2]; norm_num [THRESHOLD])
  rw [h1, h2] at key
  refine ⟨?_, ?_⟩
  · rw [key.1]; norm_num [THRESHOLD]
  · rw [key.2.1]; norm_num [THRESHOLD]

/-- C9. Function `distance` is symmetric in its two points, it is the Euclidean distance
`sqrt((x1-x2)^2 + (y1-y2)^2)` (non-negative, with square `(x1-x2)^2 + (y1-y2)^2`), and it
is zero only when the two points coincide. -/
theorem distance_symm_euclid (x1 y1 x2 y2 : ℝ) :
    distance x1 y1 x2 y2 = distance x2 y2 x1 y1 ∧
      distance x1 y1 x2 y2 = Real.sqrt ((x1 - x2) ^ 2 + (y1 - y2) ^ 2) ∧
      0 ≤ distance x1 y1 x2 y2 ∧
      distance x1 y1 x2 y2 ^ 2 = (x1 - x2) ^ 2 + (y1 - y2) ^ 2 ∧
      (distance x1 y1 x2 y2 = 0 ↔ x1 = x2 ∧ y1 = y2) := by
  have hnn : 0 ≤ (x1 - x2) ^ 2 + (y1 - y2) ^ 2 := by positivity
  refine ⟨?_, rfl, distance_nonneg _ _ _ _, Real.sq_sqrt hnn, ?_⟩
  · unfold distance
    congr 1
    ring
  · unfold distance
    rw [Real.sqrt_eq_zero hnn]
    constructor
    · intro hz
      have hx : (x1 - x2) ^ 2 = 0 := by nlinarith [sq_nonneg (x1 - x2), sq_nonneg (y1 - y2)]
      have hy : (y1 - y2) ^ 2 = 0 := by nlinarith [sq_nonneg (x1 - x2), sq_nonneg (y1 - y2)]
      exact ⟨sub_eq_zero.1 (pow_eq_zero_iff (by norm_num) |>.1 hx),
        sub_eq_zero.1 (pow_eq_zero_iff (by norm_num) |>.1 hy)⟩
    · rintro ⟨rfl, rfl⟩
      simp

/-! ## Theorems: `random_speed` -/

lemma rand_01_mem (RAND_MAX r : Nat) (hmax : 0 < RAND_MAX) (hr : r ≤ RAND_MAX) :
    0 ≤ rand_01 RAND_MAX r ∧ rand_01 RAND_MAX r ≤ 1 := by
  unfold rand_01
  have hpos : (0 : ℝ) < (RAND_MAX : ℝ) := by exact_mod_cast hmax
  have hle : (r : ℝ) ≤ (RAND_MAX : ℝ) := by exact_mod_cast hr
  exact ⟨div_nonneg (Nat.cast_nonneg r) hpos.le, (div_le_one hpos).2 hle⟩

lemma half_rpow_bounds (e : ℝ) (h4 : 4 ≤ e) (h9 : e ≤ 9) :
    (2 : ℝ) ^ (-9 : ℤ) ≤ (0.5 : ℝ) ^ e ∧ (0.5 : ℝ) ^ e ≤ (2 : ℝ) ^ (-4 : ℤ) := by
  have hb0 : (0 : ℝ) < 0.5 := by norm_num
  have hb1 : (0.5 : ℝ) ≤ 1 := by norm_num
  have e9 : (0.5 : ℝ) ^ (9 : ℝ) = (2 : ℝ) ^ (-9 : ℤ) := by
    rw [show (9 : ℝ) = ((9 : ℕ) : ℝ) by norm_num, Real.rpow_natCast]
    norm_num
  have e4 : (0.5 : ℝ) ^ (4 : ℝ) = (2 : ℝ) ^ (-4 : ℤ) := by
    rw [show (4 : ℝ) = ((4 : ℕ) : ℝ) by norm_num, Real.rpow_natCast]
    norm_num
  constructor
  · rw [← e9]
    exact Real.rpow_le_rpow_of_exponent_ge hb0 hb1 h9
  · rw [← e4]
    exact Real.rpow_le_rpow_of_exponent_ge hb0 hb1 h4

/-- C10. For every result `r1 ≤ RAND_MAX` of the first `rand()` (so `u = rand_01` is in
`[0, 1]`) and every result `r2` of the second, `random_speed` returns
`sign * 0.5^(5u + 4) * SPEED_MULTIPLIER` where `sign` is `+1` when `r2` is odd and `-1`
when it is even; the magnitude before scaling, `0.5^(5u + 4)`, lies in `[2^-9, 2^-4]`; the
result is positive exactly when `r2` is odd; and the result is never zero. -/
theorem random_speed_spec (RAND_MAX r1 r2 : Nat) (hmax : 0 < RAND_MAX) (hr : r1 ≤ RAND_MAX) :
    (0 ≤ rand_01 RAND_MAX r1 ∧ rand_01 RAND_MAX r1 ≤ 1) ∧
      random_speed RAND_MAX r1 r2
        = (if r2 % 2 = 1 then (1 : ℝ) else -1)
            * (0.5 : ℝ) ^ (5 * rand_01 RAND_MAX r1 + 4) * SPEED_MULTIPLIER ∧
      ((2 : ℝ) ^ (-9 : ℤ) ≤ (0.5 : ℝ) ^ (5 * rand_01 RAND_MAX r1 + 4) ∧
        (0.5 : ℝ) ^ (5 * rand_01 RAND_MAX r1 + 4) ≤ (2 : ℝ) ^ (-4 : ℤ)) ∧
      (0 < random_speed RAND_MAX r1 r2 ↔ r2 % 2 = 1) ∧
      random_speed RAND_MAX r1 r2 ≠ 0 := by
  have hu := rand_01_mem RAND_MAX r1 hmax hr
  have hb := half_rpow_bounds (5 * rand_01 RAND_MAX r1 + 4) (by linarith [hu.1])
    (by linarith [hu.2])
  have hm : (0 : ℝ) < (0.5 : ℝ) ^ (5 * rand_01 RAND_MAX r1 + 4) :=
    Real.rpow_pos_of_pos (by norm_num) _
  have heq : random_speed RAND_MAX r1 r2
      = (if r2 % 2 = 1 then (1 : ℝ) else -1)
          * (0.5 : ℝ) ^ (5 * rand_01 RAND_MAX r1 + 4) * SPEED_MULTIPLIER := by
    unfold random_speed
    rcases Nat.mod_two_eq_zero_or_one r2 with h2 | h2
    · simp [h2]
    · simp [h2]
  have hS : (0 : ℝ) < SPEED_MULTIPLIER := by
    unfold SPEED_MULTIPLIER
    norm_num
  have hmS := mul_pos hm hS
  have hsign : (0 < random_speed RAND_MAX r1 r2 ↔ r2 % 2 = 1) ∧
      random_speed RAND_MAX r1 r2 ≠ 0 := by
    rw [heq]
    rcases Nat.mod_two_eq_zero_or_one r2 with h2 | h2
    · have hne : ¬ (r2 % 2 = 1) := by omega
      rw [if_neg hne]
      have hneg : (-1 : ℝ) * (0.5 : ℝ) ^ (5 * rand_01 RAND_MAX r1 + 4) * SPEED_MULTIPLIER < 0 := by
        linarith
      exact ⟨⟨fun hlt => absurd hlt (not_lt.2 hneg.le), fun hf => absurd hf hne⟩, hneg.ne⟩
    · rw [if_pos h2]
      have hp : (0 : ℝ) < 1 * (0.5 : ℝ) ^ (5 * rand_01 RAND_MAX r1 + 4) * SPEED_MULTIPLIER := by
        linarith
      exact ⟨⟨fun _ => h2, fun _ => hp⟩, hp.ne'⟩
  exact ⟨hu, heq, hb, hsign.1, hsign.2⟩

/-- C10 (witness): with `RAND_MAX = 2147483647`, first draw 0 and second draw 1 the
result is `0.5^4 * 2.5`, positive and non-zero. -/
theorem random_speed_spec_witness :
    0 < random_speed 2147483647 0 1 ∧ random_speed 2147483647 0 1 ≠ 0 :=
  ⟨(random_speed_spec 2147483647 0 1 (by decide) (by decide)).2.2.2.1.2 (by decide),
    (random_speed_spec 2147483647 0 1 (by decide) (by decide)).2.2.2.2⟩

/-! ## Theorems: initial positions -/

/-- C11. For every `rand()` result `r` with `0 ≤ r ≤ RAND_MAX` and every non-negative
surface size, `rand_01` is in `[0, 1]` (both ends are reached, at `r = 0` and
`r = RAND_MAX`), and the generated position satisfies `0 ≤ random_x() ≤ width` and
`0 ≤ random_y() ≤ height`. -/
theorem random_position_bounds (width height : Int) (RAND_MAX rx ry : Nat)
    (hmax : 0 < RAND_MAX) (hw : 0 ≤ width) (hh : 0 ≤ height)
    (hrx : rx ≤ RAND_MAX) (hry : ry ≤ RAND_MAX) :
    (0 ≤ rand_01 RAND_MAX rx ∧ rand_01 RAND_MAX rx ≤ 1) ∧
      (rand_01 RAND_MAX 0 = 0 ∧ rand_01 RAND_MAX RAND_MAX = 1) ∧
      (0 ≤ random_x width RAND_MAX rx ∧ random_x width RAND_MAX rx ≤ (width : ℝ)) ∧
      (0 ≤ random_y height RAND_MAX ry ∧ random_y height RAND_MAX ry ≤ (height : ℝ)) := by
  have hux := rand_01_mem RAND_MAX rx hmax hrx
  have huy := rand_01_mem RAND_MAX ry hmax hry
  have hW : (0 : ℝ) ≤ (width : ℝ) := by exact_mod_cast hw
  have hH : (0 : ℝ) ≤ (height : ℝ) := by exact_mod_cast hh
  have hpos : (RAND_MAX : ℝ) ≠ 0 := by exact_mod_cast hmax.ne'
  refine ⟨hux, ⟨?_, ?_⟩, ⟨?_, ?_⟩, ⟨?_, ?_⟩⟩
  · unfold rand_01
    simp
  · unfold rand_01
    exact div_self hpos
  · exact mul_nonneg hW hux.1
  · unfold random_x
    exact mul_le_of_le_one_right hW hux.2
  · exact mul_nonneg hH huy.1
  · unfold random_y
    exact mul_le_of_le_one_right hH huy.2

/-- C11 (witness): on an 800 x 600 surface with `RAND_MAX = 2147483647`, the draws
`1073741823` and `2147483647` give a position inside the surface. -/
theorem random_position_bounds_witness :
    (0 ≤ random_x 800 2147483647 1073741823 ∧
        random_x 800 2147483647 1073741823 ≤ ((800 : Int) : ℝ)) ∧
      (0 ≤ random_y 600 2147483647 2147483647 ∧
        random_y 600 2147483647 2147483647 ≤ ((600 : Int) : ℝ)) :=
  (random_position_bounds 800 600 2147483647 1073741823 2147483647 (by decide) (by decide)
    (by decide) (by decide) (by decide)).2.2

/-! ## Theorems: the canvas context -/

lemma createContext_canvases (h : Heap) (c : Nat) (t : String) :
    (createContext h c t).1.canvases = h.canvases := by
  unfold createContext
  split_ifs <;> rfl

lemma createContext_2d (h : Heap) (c : Nat) :
    createContext h c "2d" =
      ({ h with contexts := h.contexts ++ [{ canvas := c, contextType := "2d" }] },
        some h.contexts.length) := by
  unfold createContext
  rw [if_neg (by simp)]

lemma createContext_other (h : Heap) (c : Nat) (t : String) (ht : t ≠ "2d") :
    createContext h c t = (h, none) := by
  unfold createContext
  rw [if_pos ht]

/-- A canvas that already holds a context returns it for every requested type and the heap
stays as it is. -/
lemma canvas_getContext_cached (h : Heap) (c a : Nat) (t : String)
    (hctx : ctxOf h c = some a) : canvas_getContext h c t = (h, some a) := by
  unfold ctxOf at hctx
  unfold canvas_getContext
  cases hget : h.canvases[c]? with
  | none => rw [hget] at hctx; simp at hctx
  | some e =>
    rw [hget] at hctx
    simp only [Option.some_bind] at hctx
    simp only [hctx]

lemma ctxOf_createCanvas (h : Heap) (id : String) :
    ctxOf (createCanvas h id).1 (createCanvas h id).2 = none := by
  simp [ctxOf, createCanvas]

lemma canvases_createCanvas (h : Heap) (id : String) :
    (createCanvas h id).1.canvases[(createCanvas h id).2]? = some { ctx := none, id := id } := by
  simp [createCanvas]

/-- A request on a canvas without a context: the result of `createContext` is stored in
the canvas and returned. -/
lemma canvas_getContext_empty (h : Heap) (c : Nat) (t : String) (e : HTMLCanvasElement)
    (hget : h.canvases[c]? = some e) (hnone : e.ctx = none) :
    canvas_getContext h c t =
      ({ (createContext h c t).1 with
          canvases := (createContext h c t).1.canvases.set c { e with ctx := (createContext h c t).2 } },
        (createContext h c t).2) := by
  unfold canvas_getContext
  rw [hget]
  simp only [hnone]

/-- A `getContext` call on any canvas leaves a context stored in canvas `c` in place. -/
lemma ctxOf_canvas_getContext (h : Heap) (c a d : Nat) (t : String)
    (hctx : ctxOf h c = some a) : ctxOf (canvas_getContext h d t).1 c = some a := by
  cases hget : h.canvases[d]? with
  | none =>
    unfold canvas_getContext
    rw [hget]
    exact hctx
  | some e =>
    cases hectx : e.ctx with
    | some b =>
      have hd : ctxOf h d = some b := by simp [ctxOf, hget, hectx]
      rw [canvas_getContext_cached h d b t hd]
      exact hctx
    | none =>
      have hne : d ≠ c := by
        rintro rfl
        simp [ctxOf, hget, hectx] at hctx
      rw [canvas_getContext_empty h d t e hget hectx]
      unfold ctxOf at hctx ⊢
      simp only []
      rw [List.getElem?_set_ne hne, createContext_canvases]
      exact hctx

lemma ctxOf_getContexts (reqs : List (Nat × String)) :
    ∀ (h : Heap) (c a : Nat), ctxOf h c = some a → ctxOf (getContexts h reqs) c = some a := by
  induction reqs with
  | nil => intro h c a hctx; exact hctx
  | cons r rs ih =>
    intro h c a hctx
    exact ih _ c a (ctxOf_canvas_getContext h c a r.1 r.2 hctx)

/-- The first `"2d"` request on a canvas without a context. -/
lemma canvas_getContext_first (h : Heap) (c : Nat) (e : HTMLCanvasElement)
    (hget : h.canvases[c]? = some e) (hnone : e.ctx = none) :
    (canvas_getContext h c "2d").2 = some h.contexts.length ∧
      (canvas_getContext h c "2d").1.contexts
        = h.contexts ++ [{ canvas := c, contextType := "2d" }] ∧
      ctxOf (canvas_getContext h c "2d").1 c = some h.contexts.length := by
  have hlt : c < h.canvases.length := by
    rcases List.getElem?_eq_some_iff.1 hget with ⟨hc, _⟩
    exact hc
  rw [canvas_getContext_empty h c "2d" e hget hnone, createContext_2d]
  refine ⟨rfl, rfl, ?_⟩
  simp [ctxOf, hlt]

/-- A request for another type on a canvas without a context returns `NULL` and leaves
the heap as it is. -/
lemma canvas_getContext_null (h : Heap) (c : Nat) (t : String) (e : HTMLCanvasElement)
    (hget : h.canvases[c]? = some e) (hnone : e.ctx = none) (ht : t ≠ "2d") :
    canvas_getContext h c t = (h, none) := by
  rw [canvas_getContext_empty h c t e hget hnone, createContext_other h c t ht]
  have he : ({ e with ctx := none } : HTMLCanvasElement) = e := by
    cases e
    simp only [HTMLCanvasElement.mk.injEq, and_true]
    exact hnone.symm
  have hlt : c < h.canvases.length := by
    rcases List.getElem?_eq_some_iff.1 hget with ⟨hc, _⟩
    exact hc
  have hset : h.canvases.set c e = h.canvases := by
    apply List.ext_getElem?
    intro i
    by_cases hic : c = i
    · subst hic
      rw [List.getElem?_set_self hlt, hget]
    · rw [List.getElem?_set_ne hic]
  simp only [he, hset]

/-- C12 (the code at the failing input). On the canvas `"root"` the first request
`getContext(canvas, "2d")` returns the context at address 0, and the following request
`getContext(canvas, "webgl")` returns that same context, not `NULL`: once a context is
stored, `canvas_getContext` does not look at `contextType`.  On the canvas without a
context the same `"webgl"` request does return `NULL`. -/
theorem getContext_webgl_after_2d :
    (canvas_getContext (createCanvas ⟨[], []⟩ "root").1 0 "2d").2 = some 0 ∧
      (canvas_getContext
        (canvas_getContext (createCanvas ⟨[], []⟩ "root").1 0 "2d").1 0 "webgl").2 = some 0 ∧
      (canvas_getContext (createCanvas ⟨[], []⟩ "root").1 0 "webgl").2 = none := by
  decide

/-- C13. The context of a canvas is a lazily created singleton.  A canvas just returned by
`createCanvas` holds no context.  The first `getContext(canvas, "2d")` on it allocates
exactly one context, stores it in the canvas, and `getCanvas` of that context is the
canvas.  After that, whatever `getContext` calls are made in between (on any canvas, for
any type), `getContext(canvas, "2d")` returns that same context and leaves the heap as it
is, so no further context is created.  On any allocated canvas, a `getContext` call that
returns `NULL` leaves the canvas without a context, and the next `"2d"` request on it
returns a context whose `getCanvas` is the canvas. -/
theorem getContext_lazy_singleton (h : Heap) (id : String) :
    ctxOf (createCanvas h id).1 (createCanvas h id).2 = none ∧
    (∃ a : Nat,
      (canvas_getContext (createCanvas h id).1 (createCanvas h id).2 "2d").2 = some a ∧
      ctxOf (canvas_getContext (createCanvas h id).1 (createCanvas h id).2 "2d").1
        (createCanvas h id).2 = some a ∧
      context2d_getCanvas
        (canvas_getContext (createCanvas h id).1 (createCanvas h id).2 "2d").1 a
          = some (createCanvas h id).2 ∧
      (canvas_getContext (createCanvas h id).1 (createCanvas h id).2 "2d").1.contexts.length
        = (createCanvas h id).1.contexts.length + 1 ∧
      ∀ reqs : List (Nat × String),
        canvas_getContext
          (getContexts (canvas_getContext (createCanvas h id).1 (createCanvas h id).2 "2d").1
            reqs) (createCanvas h id).2 "2d"
          = (getContexts (canvas_getContext (createCanvas h id).1 (createCanvas h id).2 "2d").1
              reqs, some a)) ∧
    (∀ (g : Heap) (c : Nat) (t : String), c < g.canvases.length →
      (canvas_getContext g c t).2 = none →
        ctxOf (canvas_getContext g c t).1 c = none ∧
        ∃ a : Nat,
          (canvas_getContext (canvas_getContext g c t).1 c "2d").2 = some a ∧
          context2d_getCanvas (canvas_getContext (canvas_getContext g c t).1 c "2d").1 a
            = some c) := by
  refine ⟨ctxOf_createCanvas h id, ?_, ?_⟩
  · have hfirst := canvas_getContext_first (createCanvas h id).1 (createCanvas h id).2
      { ctx := none, id := id } (canvases_createCanvas h id) rfl
    refine ⟨(createCanvas h id).1.contexts.length, hfirst.1, hfirst.2.2, ?_, ?_, ?_⟩
    · unfold context2d_getCanvas
      rw [hfirst.2.1]
      simp
    · rw [hfirst.2.1]
      simp
    · intro reqs
      exact canvas_getContext_cached _ _ _ _ (ctxOf_getContexts reqs _ _ _ hfirst.2.2)
  · intro g c t hc hnull
    have hget : g.canvases[c]? = some g.canvases[c] := List.getElem?_eq_getElem hc
    cases hectx : (g.canvases[c]).ctx with
    | some b =>
      have hcached := canvas_getContext_cached g c b t (by simp [ctxOf, hget, hectx])
      rw [hcached] at hnull
      simp at hnull
    | none =>
      have ht : t ≠ "2d" := by
        rintro rfl
        rw [(canvas_getContext_first g c _ hget hectx).1] at hnull
        simp at hnull
      rw [canvas_getContext_null g c t _ hget hectx ht]
      have hfirst := canvas_getContext_first g c _ hget hectx
      refine ⟨by simp [ctxOf, hget, hectx], g.contexts.length, hfirst.1, ?_⟩
      unfold context2d_getCanvas
      rw [hfirst.2.1]
      simp

/-- C13 (witness): on an empty heap, canvas `"root"` gets the context at address 0; the
requests `"webgl"` on it and `"2d"` on an unallocated address in between change nothing,
and a `"webgl"` request on a second canvas returns `NULL` before its `"2d"` request
succeeds. -/
theorem getContext_lazy_singleton_witness :
    canvas_getContext
        (getContexts (canvas_getContext (createCanvas ⟨[], []⟩ "root").1
          (createCanvas ⟨[], []⟩ "root").2 "2d").1 [(0, "webgl"), (7, "2d")])
        (createCanvas ⟨[], []⟩ "root").2 "2d"
      = (⟨[{ ctx := some 0, id := "root" }], [{ canvas := 0, contextType := "2d" }]⟩, some 0) ∧
    ∃ a : Nat,
      (canvas_getContext
        (canvas_getContext ⟨[{ ctx := none, id := "other" }], []⟩ 0 "webgl").1 0 "2d").2
          = some a := by
  obtain ⟨_, ⟨a, ha, _, _, _, hlater⟩, hnull⟩ := getContext_lazy_singleton ⟨[], []⟩ "root"
  refine ⟨?_, ?_⟩
  · have ha0 : a = 0 := by
      have h0 : (canvas_getContext (createCanvas ⟨[], []⟩ "root").1
          (createCanvas ⟨[], []⟩ "root").2 "2d").2 = some 0 := by decide
      rw [h0] at ha
      exact (Option.some.inj ha).symm
    rw [hlater [(0, "webgl"), (7, "2d")], ha0]
    decide
  · obtain ⟨_, b, hb, _⟩ := hnull ⟨[{ ctx := none, id := "other" }], []⟩ 0 "webgl"
      (by decide) (by decide)
    exact ⟨b, hb⟩

/-! ## Theorems: `setParticleCount` -/

lemma foldl_push {P : Type} (fresh : Nat → P) (l : List Nat) :
    ∀ ps : List P, l.foldl (fun ps i => ps ++ [fresh i]) ps = ps ++ l.map fresh := by
  induction l with
  | nil => intro ps; simp
  | cons i l ih =>
    intro ps
    rw [List.foldl_cons, ih, List.map_cons, List.append_assoc]
    rfl

/-- What `setParticleCount` leaves in the list: when the list is longer than `count`, the
list without its first `length - count` entries; otherwise the list followed by `count`
new particles. -/
lemma setParticleCount_eq {P : Type} (fresh : Nat → P) (ps : List P) (count : Nat) :
    DriverCpp.setParticleCount fresh ps count =
      if count < ps.length then ps.drop (ps.length - count)
      else ps ++ (List.range count).map fresh := by
  unfold DriverCpp.setParticleCount
  simp only []
  by_cases hlt : count < ps.length
  · have hq : (count : Int) - (ps.length : Int) < 0 := by omega
    have hn : (-((count : Int) - (ps.length : Int))).toNat = ps.length - count := by omega
    rw [if_pos hq, if_pos hlt, hn]
  · have hq : ¬ ((count : Int) - (ps.length : Int) < 0) := by omega
    rw [if_neg hq, if_neg hlt, foldl_push]

/-- C14 (the code at the failing input). A list of 3 particles and the target count 5: the
`else` branch pushes `count = 5` new particles, not `quota = 2`, so the list holds 8
particles afterwards instead of 5.  In general the length afterwards is `count` when the
list was longer than `count`, and `length + count` otherwise, which is `count` only when
the list was empty. -/
theorem setParticleCount_overshoots :
    (DriverCpp.setParticleCount (fun i => (⟨i, 0, 0, 0⟩ : Particle ℚ))
        [⟨10, 10, 1, 1⟩, ⟨20, 20, 1, 1⟩, ⟨30, 30, 1, 1⟩] 5).length = 8 ∧
      DriverCpp.setParticleCount (fun i => (⟨i, 0, 0, 0⟩ : Particle ℚ))
        [⟨10, 10, 1, 1⟩, ⟨20, 20, 1, 1⟩, ⟨30, 30, 1, 1⟩] 5
        = [⟨10, 10, 1, 1⟩, ⟨20, 20, 1, 1⟩, ⟨30, 30, 1, 1⟩,
            ⟨0, 0, 0, 0⟩, ⟨1, 0, 0, 0⟩, ⟨2, 0, 0, 0⟩, ⟨3, 0, 0, 0⟩, ⟨4, 0, 0, 0⟩] ∧
      ∀ (P : Type) (fresh : Nat → P) (ps : List P) (count : Nat),
        (DriverCpp.setParticleCount fresh ps count).length
          = if count < ps.length then count else ps.length + count := by
  refine ⟨?_, ?_, ?_⟩
  · rw [setParticleCount_eq]
    simp [List.range_succ]
  · rw [setParticleCount_eq]
    simp [List.range_succ]
  · intro P fresh ps count
    rw [setParticleCount_eq]
    split_ifs with hlt
    · rw [List.length_drop]
      omega
    · simp

/-- C15. Function `setParticleCount` keeps the particles it does not delete as they are.
When the list is not longer than `count` (it grows), the list afterwards is the old
list, unchanged and in order, followed by the new particles.  When the list is longer than
`count` (it shrinks), the list afterwards is the old list without its first
`length - count` entries: a suffix of the old list, so every survivor is an unchanged old
particle and the survivors keep their relative order. -/
theorem setParticleCount_preserves {P : Type} (fresh : Nat → P) (ps : List P) (count : Nat) :
    (DriverCpp.setParticleCount fresh ps count =
        if count < ps.length then ps.drop (ps.length - count)
        else ps ++ (List.range count).map fresh) ∧
      (if count < ps.length then
          DriverCpp.setParticleCount fresh ps count <:+ ps ∧
            (DriverCpp.setParticleCount fresh ps count).Sublist ps
        else ps <+: DriverCpp.setParticleCount fresh ps count) := by
  refine ⟨setParticleCount_eq fresh ps count, ?_⟩
  rw [setParticleCount_eq]
  split_ifs with hlt
  · exact ⟨List.drop_suffix _ _, List.drop_sublist _ _⟩
  · exact List.prefix_append _ _

/-! ## Theorems: ticks -/

section TickLemmas

variable {α : Type} [LinearOrderedField α]

lemma particleAt_eq_getElem (ps : List (Particle α)) (i : Nat) (hi : i < ps.length) :
    particleAt ps i = ps[i] := by
  unfold particleAt
  exact List.getD_eq_getElem _ _ hi

lemma particleAt_of_le (ps : List (Particle α)) (i : Nat) (hi : ps.length ≤ i) :
    particleAt ps i = ⟨0, 0, 0, 0⟩ := by
  unfold particleAt
  exact List.getD_eq_default _ _ hi

/-- One tick on an array of exactly `n` particles replaces every particle by its physics
update. -/
lemma animate_particles (n : Nat) (w h : Int) (ps : List (Particle α))
    (hlen : ps.length = n) : (animate n w h ps).particles = ps.map (physics w h) := by
  have hl : (animate n w h ps).particles.length = ps.length := animateLoop_length n w h ps n
  apply List.ext_getElem
  · rw [hl, List.length_map]
  · intro i h1 h2
    rw [List.getElem_map, ← particleAt_eq_getElem _ i h1]
    have hi : i < ps.length := by rw [← hl]; exact h1
    rw [← particleAt_eq_getElem ps i hi]
    exact animateLoop_updated n w h ps n i (by omega) hi

lemma physicsN_cons (wh : Int × Int) (sizes : List (Int × Int)) (p : Particle α) :
    physicsN (wh :: sizes) p = physicsN sizes (physics wh.1 wh.2 p) := rfl

lemma ticks_eq_map (n : Nat) (sizes : List (Int × Int)) :
    ∀ ps : List (Particle α), ps.length = n → ticks n sizes ps = ps.map (physicsN sizes) := by
  induction sizes with
  | nil =>
    intro ps _
    show ps = ps.map (fun p => p)
    simp
  | cons wh sizes ih =>
    intro ps hlen
    show ticks n sizes (animate n wh.1 wh.2 ps).particles = _
    rw [animate_particles n wh.1 wh.2 ps hlen, ih _ (by rw [List.length_map]; exact hlen),
      List.map_map]
    rfl

end TickLemmas

/-- C16. One tick of `animate` on an array of `n` particles (`n = PARTICLE_COUNT` in the
program) maps the array pointwise: the array afterwards is the old array with `physics`
applied to each entry, so it keeps its length and order, and entry `i` afterwards is a
function of entry `i` before and of that tick's `(width, height)` only.  Hence after any
sequence of ticks the array is the initial array with the iterated physics of the same
size sequence applied to each entry, still of length `n`; `animate` and `ticks` take no
random input, so equal initial arrays and equal size sequences give equal arrays. -/
theorem animate_pointwise {α : Type} [LinearOrderedField α] (n : Nat) (w h : Int)
    (ps : List (Particle α)) (hlen : ps.length = n) :
    (animate n w h ps).particles = ps.map (physics w h) ∧
      (animate n w h ps).particles.length = n ∧
      (∀ i : Nat, i < n →
        particleAt (animate n w h ps).particles i = physics w h (particleAt ps i)) ∧
      ∀ sizes : List (Int × Int),
        ticks n sizes ps = ps.map (physicsN sizes) ∧ (ticks n sizes ps).length = n := by
  refine ⟨animate_particles n w h ps hlen, ?_, ?_, ?_⟩
  · rw [animate_particles n w h ps hlen, List.length_map, hlen]
  · intro i hi
    exact animateLoop_updated n w h ps n i hi (by omega)
  · intro sizes
    rw [ticks_eq_map n sizes ps hlen, List.length_map]
    exact ⟨rfl, hlen⟩

/-- C16 (witness): three particles, one tick on an 800 x 600 surface and a second on a
400 x 300 surface. -/
theorem animate_pointwise_witness :
    ticks 3 [(800, 600), (400, 300)]
        ([⟨1, 50, -2, 0⟩, ⟨10, 10, 1, 1⟩, ⟨799, 5, 3, -4⟩] : List (Particle ℚ))
      = [⟨5, 50, 2, 0⟩, ⟨12, 12, 1, 1⟩, ⟨397, 7, 3, 4⟩] := by
  rw [((animate_pointwise 3 800 600
    ([⟨1, 50, -2, 0⟩, ⟨10, 10, 1, 1⟩, ⟨799, 5, 3, -4⟩] : List (Particle ℚ)) rfl).2.2.2
      [(800, 600), (400, 300)]).1]
  norm_num [physicsN, physics, PARTICLE_SIZE]

/-! ## Theorems: the speed ranges in the comments -/

lemma half_rpow_four : (0.5 : ℝ) ^ (4 : ℝ) = 1 / 16 := by
  rw [show (4 : ℝ) = ((4 : ℕ) : ℝ) by norm_num, Real.rpow_natCast]
  norm_num

lemma half_rpow_nine : (0.5 : ℝ) ^ (9 : ℝ) = 1 / 512 := by
  rw [show (9 : ℝ) = ((9 : ℕ) : ℝ) by norm_num, Real.rpow_natCast]
  norm_num

lemma random_speed_eq_sign (RAND_MAX r1 r2 : Nat) :
    random_speed RAND_MAX r1 r2
      = (if r2 % 2 = 1 then (1 : ℝ) else -1)
          * (0.5 : ℝ) ^ (5 * rand_01 RAND_MAX r1 + 4) * SPEED_MULTIPLIER := by
  unfold random_speed
  rcases Nat.mod_two_eq_zero_or_one r2 with h2 | h2
  · simp [h2]
  · simp [h2]

lemma abs_random_speed (RAND_MAX r1 r2 : Nat) :
    |random_speed RAND_MAX r1 r2| = (0.5 : ℝ) ^ (5 * rand_01 RAND_MAX r1 + 4) * 2.5 := by
  have hm : (0 : ℝ) < (0.5 : ℝ) ^ (5 * rand_01 RAND_MAX r1 + 4) :=
    Real.rpow_pos_of_pos (by norm_num) _
  have hprod : (0 : ℝ) < (0.5 : ℝ) ^ (5 * rand_01 RAND_MAX r1 + 4) * 2.5 :=
    mul_pos hm (by norm_num)
  rw [random_speed_eq_sign]
  unfold SPEED_MULTIPLIER
  split_ifs
  · rw [one_mul, abs_of_pos hprod]
  · rw [neg_one_mul, neg_mul, abs_neg, abs_of_pos hprod]

/-- C17 (counterexample). With `RAND_MAX = 2147483647`, first draw 0 and second draw 1,
`random_speed` of `driver.c` returns `0.5^4 * 2.5 = 0.15625`, which is above 0.0625. -/
theorem random_speed_exceeds_comment :
    random_speed 2147483647 0 1 = 0.15625 ∧
      ¬ (0.001953125 ≤ |random_speed 2147483647 0 1| ∧
          |random_speed 2147483647 0 1| ≤ 0.0625) := by
  have hval : random_speed 2147483647 0 1 = 0.15625 := by
    rw [random_speed_eq_sign]
    unfold rand_01 SPEED_MULTIPLIER
    rw [show (5 : ℝ) * (((0 : ℕ) : ℝ) / ((2147483647 : ℕ) : ℝ)) + 4 = (4 : ℝ) by norm_num,
      half_rpow_four]
    norm_num
  refine ⟨hval, ?_⟩
  rw [hval]
  norm_num [abs_of_pos]

/-- C17 (amended). For every pair of random draws (the first at most `RAND_MAX`), the value
returned by `random_speed` of `driver.c` has a magnitude between `0.0048828125` and
`0.15625` inclusive, that is the range `[0.001953125, 0.0625]` of its comment multiplied by
`SPEED_MULTIPLIER = 2.5`. -/
theorem random_speed_magnitude (RAND_MAX r1 r2 : Nat) (hmax : 0 < RAND_MAX)
    (hr : r1 ≤ RAND_MAX) :
    0.0048828125 ≤ |random_speed RAND_MAX r1 r2| ∧
      |random_speed RAND_MAX r1 r2| ≤ 0.15625 ∧
      |random_speed RAND_MAX r1 r2|
        = (0.5 : ℝ) ^ (5 * rand_01 RAND_MAX r1 + 4) * SPEED_MULTIPLIER ∧
      (0.001953125 ≤ (0.5 : ℝ) ^ (5 * rand_01 RAND_MAX r1 + 4) ∧
        (0.5 : ℝ) ^ (5 * rand_01 RAND_MAX r1 + 4) ≤ 0.0625) := by
  have hu := rand_01_mem RAND_MAX r1 hmax hr
  have hb := half_rpow_bounds (5 * rand_01 RAND_MAX r1 + 4) (by linarith [hu.1])
    (by linarith [hu.2])
  have h9 : (2 : ℝ) ^ (-9 : ℤ) = 0.001953125 := by norm_num
  have h4 : (2 : ℝ) ^ (-4 : ℤ) = 0.0625 := by norm_num
  rw [h9, h4] at hb
  rw [abs_random_speed]
  unfold SPEED_MULTIPLIER
  refine ⟨?_, ?_, rfl, hb⟩
  · linarith [hb.1]
  · linarith [hb.2]

/-- C17 (witness): `RAND_MAX = 2147483647`, first draw `RAND_MAX` (the slowest speed),
second draw 0. -/
theorem random_speed_magnitude_witness :
    0.0048828125 ≤ |random_speed 2147483647 2147483647 0| ∧
      |random_speed 2147483647 2147483647 0| ≤ 0.15625 :=
  ⟨(random_speed_magnitude 2147483647 2147483647 0 (by decide) (by decide)).1,
    (random_speed_magnitude 2147483647 2147483647 0 (by decide) (by decide)).2.1⟩

lemma cpp_random_speed_eq (RAND_MAX r1 r2 : Nat) :
    DriverCpp.random_speed RAND_MAX r1 r2
      = -((0.5 : ℝ) ^ ((((r1 : ℝ) / (RAND_MAX : ℝ)) * 5) + 4)) := by
  unfold DriverCpp.random_speed
  have hs : (((r2 : Int) % 1) - 1 : Int) = -1 := by omega
  rw [hs]
  push_cast
  ring

/-- C18 (the code at the failing input). Function `random_speed` of `driver.cpp` is
negative for every pair of `rand()` results, because `rand() % 1` is always 0 and the sign
factor `(rand() % 1) - 1` is always `-1`: it never returns zero.  With
`RAND_MAX = 2147483647`, first draw `RAND_MAX` and second draw 0 it returns
`-(0.5^9) = -0.001953125`, which is neither zero nor of a magnitude in `[0.016, 0.5]`. -/
theorem cpp_random_speed_never_zero :
    (∀ RAND_MAX r1 r2 : Nat, DriverCpp.random_speed RAND_MAX r1 r2 < 0) ∧
      DriverCpp.random_speed 2147483647 2147483647 0 = -0.001953125 ∧
      ¬ (DriverCpp.random_speed 2147483647 2147483647 0 = 0 ∨
          (0.016 ≤ |DriverCpp.random_speed 2147483647 2147483647 0| ∧
            |DriverCpp.random_speed 2147483647 2147483647 0| ≤ 0.5)) := by
  have hval : DriverCpp.random_speed 2147483647 2147483647 0 = -0.001953125 := by
    rw [cpp_random_speed_eq]
    rw [show (((2147483647 : ℕ) : ℝ) / ((2147483647 : ℕ) : ℝ)) * 5 + 4 = (9 : ℝ) by norm_num,
      half_rpow_nine]
    norm_num
  refine ⟨?_, hval, ?_⟩
  · intro RAND_MAX r1 r2
    rw [cpp_random_speed_eq]
    exact neg_lt_zero.2 (Real.rpow_pos_of_pos (by norm_num) _)
  · rw [hval]
    norm_num [abs_of_pos]

/-! ## Theorems: speed and direction -/

section SpeedLemmas

variable {α : Type} [LinearOrderedField α]

lemma physics_abs_vx (w h : Int) (p : Particle α) : |(physics w h p).vx| = |p.vx| := by
  rw [physics_vx]
  split_ifs <;> simp

lemma physics_abs_vy (w h : Int) (p : Particle α) : |(physics w h p).vy| = |p.vy| := by
  rw [physics_vy]
  split_ifs <;> simp

lemma physicsN_abs (sizes : List (Int × Int)) :
    ∀ p : Particle α, |(physicsN sizes p).vx| = |p.vx| ∧ |(physicsN sizes p).vy| = |p.vy| := by
  induction sizes with
  | nil => intro p; exact ⟨rfl, rfl⟩
  | cons wh sizes ih =>
    intro p
    rw [physicsN_cons, (ih _).1, (ih _).2, physics_abs_vx, physics_abs_vy]
    exact ⟨rfl, rfl⟩

lemma particleAt_map (f : Particle α → Particle α) (ps : List (Particle α)) (i : Nat)
    (hi : i < ps.length) : particleAt (ps.map f) i = f (particleAt ps i) := by
  rw [particleAt_eq_getElem _ i (by rw [List.length_map]; exact hi),
    particleAt_eq_getElem ps i hi, List.getElem_map]

end SpeedLemmas

/-- C19. The physics update changes the direction of a velocity component but never its
magnitude: after one tick `|vx'| = |vx|` and `|vy'| = |vy|`, for every particle and every
surface size.  So after any sequence of ticks each component has the magnitude it started
with, both for a single particle under the iterated update and for every entry of the array
under `animate`; a component that is zero stays zero. -/
theorem physics_keeps_speed {α : Type} [LinearOrderedField α] (w h : Int) (p : Particle α) :
    (|(physics w h p).vx| = |p.vx| ∧ |(physics w h p).vy| = |p.vy|) ∧
      (∀ sizes : List (Int × Int),
        |(physicsN sizes p).vx| = |p.vx| ∧ |(physicsN sizes p).vy| = |p.vy|) ∧
      (∀ (sizes : List (Int × Int)) (ps : List (Particle α)) (i : Nat),
        |(particleAt (ticks ps.length sizes ps) i).vx| = |(particleAt ps i).vx| ∧
          |(particleAt (ticks ps.length sizes ps) i).vy| = |(particleAt ps i).vy|) ∧
      (∀ (sizes : List (Int × Int)) (x y vy : α), (physicsN sizes ⟨x, y, 0, vy⟩).vx = 0) ∧
      (∀ (sizes : List (Int × Int)) (x y vx : α), (physicsN sizes ⟨x, y, vx, 0⟩).vy = 0) := by
  refine ⟨⟨physics_abs_vx w h p, physics_abs_vy w h p⟩, fun sizes => physicsN_abs sizes p,
    ?_, ?_, ?_⟩
  · intro sizes ps i
    rw [ticks_eq_map ps.length sizes ps rfl]
    by_cases hi : i < ps.length
    · rw [particleAt_map _ ps i hi]
      exact physicsN_abs sizes _
    · rw [particleAt_of_le _ i (by rw [List.length_map]; omega),
        particleAt_of_le ps i (by omega)]
      exact ⟨rfl, rfl⟩
  · intro sizes x y vy
    have habs := (physicsN_abs sizes (⟨x, y, 0, vy⟩ : Particle α)).1
    rw [abs_zero] at habs
    exact abs_eq_zero.1 habs
  · intro sizes x y vx
    have habs := (physicsN_abs sizes (⟨x, y, vx, 0⟩ : Particle α)).2
    rw [abs_zero] at habs
    exact abs_eq_zero.1 habs

/-- C20. For a particle inside the bounds before the tick (`3 ≤ x ≤ width - 3`,
`3 ≤ y ≤ height - 3`) on a surface with `width ≥ 6` and `height ≥ 6`, every bounce leaves
the velocity pointing into the surface.  If the left (top) branch is taken, the new `vx`
(`vy`) is strictly positive and, with the same size on the next tick, the left (top) test
of that tick fails.  If the right (bottom) branch is taken, the new `vx` (`vy`) is strictly
negative and the right (bottom) test of the next tick fails.  (The size hypotheses follow
from the position bounds and are not used by the proof.) -/
theorem bounce_points_inward {α : Type} [LinearOrderedField α] (w h : Int) (p : Particle α)
    (_hw : 6 ≤ w) (_hh : 6 ≤ h)
    (hx1 : 3 ≤ p.x) (hx2 : p.x ≤ (w : α) - 3) (hy1 : 3 ≤ p.y) (hy2 : p.y ≤ (h : α) - 3) :
    (p.x + p.vx < 3 →
        0 < (physics w h p).vx ∧ ¬ ((physics w h p).x + (physics w h p).vx < 3)) ∧
      (¬ (p.x + p.vx < 3) → p.x + p.vx > (w : α) - 3 →
        (physics w h p).vx < 0 ∧
          ¬ ((physics w h p).x + (physics w h p).vx > (w : α) - 3)) ∧
      (p.y + p.vy < 3 →
        0 < (physics w h p).vy ∧ ¬ ((physics w h p).y + (physics w h p).vy < 3)) ∧
      (¬ (p.y + p.vy < 3) → p.y + p.vy > (h : α) - 3 →
        (physics w h p).vy < 0 ∧
          ¬ ((physics w h p).y + (physics w h p).vy > (h : α) - 3)) := by
  refine ⟨?_, ?_, ?_, ?_⟩
  · intro hl
    rw [physics_x, physics_vx, if_pos hl, if_pos hl]
    constructor
    · linarith
    · intro hcon
      linarith
  · intro hnl hr
    rw [physics_x, physics_vx, if_neg hnl, if_neg hnl, if_pos hr, if_pos hr]
    constructor
    · linarith
    · intro hcon
      linarith
  · intro hl
    rw [physics_y, physics_vy, if_pos hl, if_pos hl]
    constructor
    · linarith
    · intro hcon
      linarith
  · intro hnl hr
    rw [physics_y, physics_vy, if_neg hnl, if_neg hnl, if_pos hr, if_pos hr]
    constructor
    · linarith
    · intro hcon
      linarith

/-- C20 (witness): the particle `(4, 596, -2, 3)` on an 800 x 600 surface bounces off the
left and the bottom edge; afterwards `vx = 2 > 0` and `vy = -3 < 0`. -/
theorem bounce_points_inward_witness :
    (0 < (physics 800 600 (⟨4, 596, -2, 3⟩ : Particle ℚ)).vx ∧
        ¬ ((physics 800 600 (⟨4, 596, -2, 3⟩ : Particle ℚ)).x
            + (physics 800 600 (⟨4, 596, -2, 3⟩ : Particle ℚ)).vx < 3)) ∧
      ((physics 800 600 (⟨4, 596, -2, 3⟩ : Particle ℚ)).vy < 0 ∧
        ¬ ((physics 800 600 (⟨4, 596, -2, 3⟩ : Particle ℚ)).y
            + (physics 800 600 (⟨4, 596, -2, 3⟩ : Particle ℚ)).vy > ((600 : Int) : ℚ) - 3)) := by
  have key := bounce_points_inward 800 600 (⟨4, 596, -2, 3⟩ : Particle ℚ) (by decide)
    (by decide) (by norm_num) (by norm_num) (by norm_num) (by norm_num)
  exact ⟨key.1 (by norm_num), key.2.2.2 (by norm_num) (by norm_num)⟩

/-! ## Theorems: the colour buffer -/

lemma fmtFrac_length (n : Nat) : (fmtFrac n).length = 6 := by
  simp [fmtFrac]

lemma fmtMicro_length (m : Nat) :
    (fmtMicro m).length = (Nat.toDigits 10 (m / 10 ^ 6)).length + 7 := by
  unfold fmtMicro
  rw [String.length, List.length_append, List.length_cons, fmtFrac_length]

lemma toDigitsCore_length_pos (f m : Nat) (hf : 0 < f) :
    1 ≤ (Nat.toDigitsCore 10 f m []).length := by
  cases f with
  | zero => omega
  | succ f =>
    simp only [Nat.toDigitsCore]
    split_ifs
    · simp
    · rw [Nat.toDigitsCore_lens_eq]
      omega

lemma toDigits_length_lt_ten (n : Nat) (hn : n < 10) : (Nat.toDigits 10 n).length = 1 := by
  interval_cases n <;> rfl

lemma toDigits_length_ge_ten (n : Nat) (hn : 10 ≤ n) : 2 ≤ (Nat.toDigits 10 n).length := by
  unfold Nat.toDigits
  simp only [Nat.toDigitsCore]
  have hdiv : n / 10 ≠ 0 := by omega
  rw [if_neg hdiv, Nat.toDigitsCore_lens_eq]
  have hpos := toDigitsCore_length_pos n (n / 10) (by omega)
  omega

lemma printf_f_of_nonneg (x : ℝ) (hx : 0 ≤ x) :
    printf_f x = fmtMicro ⌊x * 10 ^ 6 + 1 / 2⌋₊ := by
  unfold printf_f
  rw [if_neg (not_lt.2 hx)]

lemma colorText_length (x : ℝ) (hx : 0 ≤ x) :
    (colorText x).length
      = 28 + (Nat.toDigits 10 (⌊x * 10 ^ 6 + 1 / 2⌋₊ / 10 ^ 6)).length := by
  unfold colorText
  rw [String.length_append, String.length_append, printf_f_of_nonneg x hx, fmtMicro_length]
  have h1 : ("rgba(229, 227, 223, " : String).length = 20 := by decide
  have h2 : (")" : String).length = 1 := by decide
  rw [h1, h2]
  omega

/-- The text of `line_between` with its terminating zero byte fits the buffer exactly when
the opacity is printed with a single digit before the point, that is when it is below
`9.9999995`. -/
lemma colorText_fits_iff (x : ℝ) (hx : 0 ≤ x) :
    (colorText x).length + 1 ≤ COLOR_SIZE ↔ x < 9.9999995 := by
  have hnn : (0 : ℝ) ≤ x * 10 ^ 6 + 1 / 2 := by positivity
  rw [colorText_length x hx]
  unfold COLOR_SIZE
  constructor
  · intro hfit
    by_contra hge
    have hge2 : (9.9999995 : ℝ) ≤ x := not_lt.1 hge
    have hm : 10 ^ 7 ≤ ⌊x * 10 ^ 6 + 1 / 2⌋₊ := by
      apply Nat.le_floor
      push_cast
      norm_num at hge2 ⊢
      linarith
    have hten : 10 ≤ ⌊x * 10 ^ 6 + 1 / 2⌋₊ / 10 ^ 6 := by
      rw [Nat.le_div_iff_mul_le (by norm_num)]
      omega
    have hlen := toDigits_length_ge_ten _ hten
    omega
  · intro hlt
    have hm : ⌊x * 10 ^ 6 + 1 / 2⌋₊ < 10 ^ 7 := by
      rw [Nat.floor_lt hnn]
      push_cast
      norm_num at hlt ⊢
      linarith
    have hten : ⌊x * 10 ^ 6 + 1 / 2⌋₊ / 10 ^ 6 < 10 := by
      rw [Nat.div_lt_iff_lt_mul (by norm_num)]
      omega
    rw [toDigits_length_lt_ten _ hten]

lemma line_between_color_of_lt (x1 y1 x2 y2 : ℝ) (hlt : distance x1 y1 x2 y2 < 250) :
    line_between_color x1 y1 x2 y2 = some (colorText (250 / distance x1 y1 x2 y2 - 1)) := by
  unfold line_between_color
  simp only [THRESHOLD]
  rw [if_pos hlt]

lemma colorText_twenty_four : colorText 24 = "rgba(229, 227, 223, 24.000000)" := by
  unfold colorText
  rw [printf_f_of_nonneg 24 (by norm_num)]
  have hfloor : ⌊(24 : ℝ) * 10 ^ 6 + 1 / 2⌋₊ = 24000000 := by
    rw [Nat.floor_eq_iff (by norm_num)]
    norm_num
  rw [hfloor]
  decide

lemma colorText_one_and_half : colorText 1.5 = "rgba(229, 227, 223, 1.500000)" := by
  unfold colorText
  rw [printf_f_of_nonneg 1.5 (by norm_num)]
  have hfloor : ⌊(1.5 : ℝ) * 10 ^ 6 + 1 / 2⌋₊ = 1500000 := by
    rw [Nat.floor_eq_iff (by norm_num)]
    norm_num
  rw [hfloor]
  decide

/-- C21 (the code at the failing input). For the points `(0,0)` and `(10,0)`, at distance
10, the opacity is `250 / 10 - 1 = 24` and `line_between` formats the 30 characters
`rgba(229, 227, 223, 24.000000)`; with the terminating zero byte that is 31 bytes, one more
than the 30 bytes of `color[20 + 8 + 1 + 1]`.  For `(0,0)` and `(100,0)` the text
`rgba(229, 227, 223, 1.500000)` has 29 characters and fits. -/
theorem line_between_color_overflows :
    line_between_color 0 0 10 0 = some "rgba(229, 227, 223, 24.000000)" ∧
      ("rgba(229, 227, 223, 24.000000)" : String).length = 30 ∧
      ¬ (("rgba(229, 227, 223, 24.000000)" : String).length + 1 ≤ COLOR_SIZE) ∧
      line_between_color 0 0 100 0 = some "rgba(229, 227, 223, 1.500000)" ∧
      ("rgba(229, 227, 223, 1.500000)" : String).length + 1 ≤ COLOR_SIZE := by
  have h10 : distance 0 0 10 0 = 10 := distance_horizontal 10 (by norm_num)
  have h100 : distance 0 0 100 0 = 100 := distance_horizontal 100 (by norm_num)
  refine ⟨?_, by decide, by decide, ?_, by decide⟩
  · rw [line_between_color_of_lt 0 0 10 0 (by rw [h10]; norm_num), h10,
      show (250 : ℝ) / 10 - 1 = 24 by norm_num, colorText_twenty_four]
  · rw [line_between_color_of_lt 0 0 100 0 (by rw [h100]; norm_num), h100,
      show (250 : ℝ) / 100 - 1 = 1.5 by norm_num, colorText_one_and_half]

/-- For every pair of points at distance `d` with `0 < d < 250`, the text of `line_between`
with its terminating zero byte fits the buffer exactly when `250 / d - 1 < 9.9999995`. -/
lemma line_between_color_fits_iff (x1 y1 x2 y2 : ℝ) (hpos : 0 < distance x1 y1 x2 y2)
    (hlt : distance x1 y1 x2 y2 < 250) :
    ∃ text : String, line_between_color x1 y1 x2 y2 = some text ∧
      (text.length + 1 ≤ COLOR_SIZE ↔ 250 / distance x1 y1 x2 y2 - 1 < 9.9999995) := by
  refine ⟨_, line_between_color_of_lt x1 y1 x2 y2 hlt, ?_⟩
  apply colorText_fits_iff
  have hone : (1 : ℝ) ≤ 250 / distance x1 y1 x2 y2 := by
    rw [le_div_iff₀ hpos]
    linarith
  linarith

/-! ## Theorems: coincident particles -/

lemma generate_length (n : Nat) (width height : Int) (RAND_MAX : Nat) (r : Nat → Nat) :
    (generate n width height RAND_MAX r).length = n := by
  simp [generate]

lemma particleAt_generate (n : Nat) (width height : Int) (RAND_MAX : Nat) (r : Nat → Nat)
    (k : Nat) (hk : k < n) :
    particleAt (generate n width height RAND_MAX r) k
      = generateParticle width height RAND_MAX r k := by
  rw [particleAt_eq_getElem _ k (by rw [generate_length]; exact hk)]
  simp [generate]

/-- The entry `k` of the array after one tick on a freshly generated array. -/
lemma particleAt_first_tick (n : Nat) (w h width height : Int) (RAND_MAX : Nat)
    (r : Nat → Nat) (k : Nat) (hk : k < n) :
    particleAt (ticks n [(w, h)] (generate n width height RAND_MAX r)) k
      = physics w h (generateParticle width height RAND_MAX r k) := by
  rw [ticks_eq_map n _ _ (generate_length n width height RAND_MAX r),
    particleAt_map _ _ k (by rw [generate_length]; exact hk), particleAt_generate _ _ _ _ _ k hk]
  rfl

lemma random_speed_le (RAND_MAX r1 r2 : Nat) (hmax : 0 < RAND_MAX) (hr : r1 ≤ RAND_MAX) :
    random_speed RAND_MAX r1 r2 ≤ 0.15625 := by
  have hu := rand_01_mem RAND_MAX r1 hmax hr
  have hb := half_rpow_bounds (5 * rand_01 RAND_MAX r1 + 4) (by linarith [hu.1])
    (by linarith [hu.2])
  have h4 : (2 : ℝ) ^ (-4 : ℤ) = 0.0625 := by norm_num
  rw [h4] at hb
  have habs := abs_random_speed RAND_MAX r1 r2
  have hle := le_abs_self (random_speed RAND_MAX r1 r2)
  rw [habs] at hle
  linarith [hb.2]

/-- The calls of `line_between` in one `animate`: the call sites `i < j < n`, each with the
coordinates of the array at the start of the tick. -/
lemma mem_animate_calls_line {α : Type} [LinearOrderedField α] (n : Nat) (w h : Int)
    (ps : List (Particle α)) (i j : Nat) (x1 y1 x2 y2 : α) :
    Call.line_between i j x1 y1 x2 y2 ∈ (animate n w h ps).calls ↔
      (i < j ∧ j < n) ∧ x1 = (particleAt ps i).x ∧ y1 = (particleAt ps i).y ∧
        x2 = (particleAt ps j).x ∧ y2 = (particleAt ps j).y := by
  rw [animate_calls]
  unfold drawingOf lineCalls
  simp only [List.mem_flatMap, List.mem_range, List.mem_cons, List.mem_map, List.mem_range'_1,
    Call.line_between.injEq, false_or, reduceCtorEq]
  constructor
  · rintro ⟨a, _, b, ⟨hb1, hb2⟩, rfl, rfl, rfl, rfl, rfl, rfl⟩
    exact ⟨⟨by omega, by omega⟩, rfl, rfl, rfl, rfl⟩
  · rintro ⟨⟨hij, hjn⟩, rfl, rfl, rfl, rfl⟩
    exact ⟨i, by omega, j, ⟨by omega, by omega⟩, rfl, rfl, rfl, rfl, rfl, rfl⟩

lemma pow_pos_of_ne_zero_sq (a : ℝ) (ha : a ≠ 0) : 0 < a ^ 2 := by
  have hsq := sq_nonneg a
  rcases lt_or_eq_of_le hsq with hlt | heq
  · exact hlt
  · exact absurd (pow_eq_zero_iff (by norm_num) |>.1 heq.symm) ha

lemma distance_pos_of_ne (x1 y1 x2 y2 : ℝ) (hne : x1 ≠ x2 ∨ y1 ≠ y2) :
    0 < distance x1 y1 x2 y2 := by
  unfold distance
  apply Real.sqrt_pos.2
  rcases hne with hx | hy
  · have hx2 : 0 < (x1 - x2) ^ 2 := pow_pos_of_ne_zero_sq _ (sub_ne_zero.2 hx)
    nlinarith [sq_nonneg (y1 - y2)]
  · have hy2 : 0 < (y1 - y2) ^ 2 := pow_pos_of_ne_zero_sq _ (sub_ne_zero.2 hy)
    nlinarith [sq_nonneg (x1 - x2)]

lemma distance_self (x y : ℝ) : distance x y x y = 0 := by
  unfold distance
  simp

/-- With the `rand()` results `0, 1, 2, ...` on an 800 x 600 canvas, each of the first 100
particles is generated less than one pixel from the corner `(0, 0)` and is clamped to
`(3, 3)` by its first tick. -/
lemma first_tick_corner (k : Nat) (hk : k < 100) :
    (physics 800 600 (generateParticle 800 600 2147483647 (fun m => m) k)).x = 3 ∧
      (physics 800 600 (generateParticle 800 600 2147483647 (fun m => m) k)).y = 3 := by
  have hkR : (k : ℝ) < 100 := by exact_mod_cast hk
  have hk0 : (0 : ℝ) ≤ (k : ℝ) := Nat.cast_nonneg k
  have hvx := random_speed_le 2147483647 (6 * k + 2) (6 * k + 3) (by decide) (by omega)
  have hvy := random_speed_le 2147483647 (6 * k + 4) (6 * k + 5) (by decide) (by omega)
  have hx : random_x 800 2147483647 (6 * k) < 1 := by
    unfold random_x rand_01
    push_cast
    have e : (800 : ℝ) * (6 * (k : ℝ) / 2147483647) = (4800 / 2147483647) * (k : ℝ) := by ring
    rw [e]
    linarith
  have hy : random_y 600 2147483647 (6 * k + 1) < 1 := by
    unfold random_y rand_01
    push_cast
    have e : (600 : ℝ) * ((6 * (k : ℝ) + 1) / 2147483647)
        = (3600 / 2147483647) * (k : ℝ) + 600 / 2147483647 := by ring
    rw [e]
    linarith
  constructor
  · rw [physics_x, if_pos]
    show random_x 800 2147483647 (6 * k) + random_speed 2147483647 (6 * k + 2) (6 * k + 3) < 3
    linarith
  · rw [physics_y, if_pos]
    show random_y 600 2147483647 (6 * k + 1)
      + random_speed 2147483647 (6 * k + 4) (6 * k + 5) < 3
    linarith

/-- C22 (counterexample). The 115 particles generated on an 800 x 600 canvas from the
`rand()` results `0, 1, 2, ...` (with `RAND_MAX = 2147483647`) start at different positions;
particles 0 and 1 start within a pixel of the corner `(0, 0)` and are both clamped to
`(3, 3)` by the first tick.  In the second tick `animate` calls
`line_between(3, 3, 3, 3)` for the distinct particles 0 and 1: the test
`dist < THRESHOLD` passes and `dist` is 0, not strictly positive. -/
theorem coincident_particles_reachable :
    Call.line_between 0 1 3 3 3 3 ∈
        (animate PARTICLE_COUNT 800 600
          (ticks PARTICLE_COUNT [(800, 600)]
            (generate PARTICLE_COUNT 800 600 2147483647 (fun m => m)))).calls ∧
      (particleAt (generate PARTICLE_COUNT 800 600 2147483647 (fun m => m)) 0).x
        ≠ (particleAt (generate PARTICLE_COUNT 800 600 2147483647 (fun m => m)) 1).x ∧
      distance 3 3 3 3 < THRESHOLD ∧
      ¬ (0 < distance 3 3 3 3) := by
  have h0 := first_tick_corner 0 (by decide)
  have h1 := first_tick_corner 1 (by decide)
  have hn0 : 0 < PARTICLE_COUNT := by decide
  have hn1 : 1 < PARTICLE_COUNT := by decide
  refine ⟨?_, ?_, ?_, ?_⟩
  · rw [mem_animate_calls_line,
      particleAt_first_tick PARTICLE_COUNT 800 600 800 600 2147483647 _ 0 hn0,
      particleAt_first_tick PARTICLE_COUNT 800 600 800 600 2147483647 _ 1 hn1]
    exact ⟨⟨by decide, hn1⟩, h0.1.symm, h0.2.symm, h1.1.symm, h1.2.symm⟩
  · rw [particleAt_generate _ _ _ _ _ 0 hn0, particleAt_generate _ _ _ _ _ 1 hn1]
    show random_x 800 2147483647 0 ≠ random_x 800 2147483647 6
    unfold random_x rand_01
    norm_num
  · rw [distance_self]
    norm_num [THRESHOLD]
  · rw [distance_self]
    exact lt_irrefl 0

/-- C22 (amended). Whenever `animate` calls `line_between` on two particles of an array
reachable from generation by any number of ticks and the two particles are at different
positions and the test `dist < THRESHOLD` passes, the call is for two distinct particles
(`i < j < n`), `dist` is strictly positive, so `THRESHOLD / dist` is not a division by
zero, the opacity is the positive number `THRESHOLD / dist - 1`, and the line width is the
smaller of the opacity and 3, a positive number at most 3. -/
theorem line_between_dist_pos (n : Nat) (w h : Int) (sizes : List (Int × Int))
    (width height : Int) (RAND_MAX : Nat) (r : Nat → Nat) (i j : Nat) (x1 y1 x2 y2 : ℝ)
    (hcall : Call.line_between i j x1 y1 x2 y2 ∈
      (animate n w h (ticks n sizes (generate n width height RAND_MAX r))).calls)
    (hne : x1 ≠ x2 ∨ y1 ≠ y2)
    (hlt : distance x1 y1 x2 y2 < THRESHOLD) :
    (i < j ∧ j < n) ∧
      0 < distance x1 y1 x2 y2 ∧
      (alphaOf (line_between x1 y1 x2 y2) = some (THRESHOLD / distance x1 y1 x2 y2 - 1) ∧
        0 < THRESHOLD / distance x1 y1 x2 y2 - 1) ∧
      (widthOf (line_between x1 y1 x2 y2)
          = some (Min.min (THRESHOLD / distance x1 y1 x2 y2 - 1) 3) ∧
        0 < Min.min (THRESHOLD / distance x1 y1 x2 y2 - 1) 3 ∧
        Min.min (THRESHOLD / distance x1 y1 x2 y2 - 1) 3 ≤ 3) := by
  have hsite := ((mem_animate_calls_line n w h _ i j x1 y1 x2 y2).1 hcall).1
  have hpos := distance_pos_of_ne x1 y1 x2 y2 hne
  unfold THRESHOLD at hlt ⊢
  have hop : (0 : ℝ) < 250 / distance x1 y1 x2 y2 - 1 := by
    have hone : (1 : ℝ) < 250 / distance x1 y1 x2 y2 := by
      rw [lt_div_iff₀ hpos]
      linarith
    linarith
  refine ⟨hsite, hpos, ⟨?_, hop⟩, ?_, lt_min hop (by norm_num), min_le_right _ _⟩
  · rw [line_between_of_lt _ _ _ _ hlt]
    rfl
  · rw [line_between_of_lt _ _ _ _ hlt, min_eq_lattice_min]
    rfl

/-- C22 (witness): the array generated from the `rand()` results `0, 1, 2, ...` on an
800 x 600 canvas, before any tick; particles 0 and 1 are at different positions and
`line_between` is called on them with a strictly positive distance. -/
theorem line_between_dist_pos_witness :
    0 < distance (random_x 800 2147483647 0) (random_y 600 2147483647 1)
      (random_x 800 2147483647 6) (random_y 600 2147483647 7) := by
  have hn0 : 0 < PARTICLE_COUNT := by decide
  have hn1 : 1 < PARTICLE_COUNT := by decide
  have hcall : Call.line_between 0 1 (random_x 800 2147483647 0) (random_y 600 2147483647 1)
      (random_x 800 2147483647 6) (random_y 600 2147483647 7) ∈
      (animate PARTICLE_COUNT 800 600 (ticks PARTICLE_COUNT []
        (generate PARTICLE_COUNT 800 600 2147483647 (fun m => m)))).calls := by
    rw [mem_animate_calls_line]
    show _ ∧ _ = (particleAt (generate PARTICLE_COUNT 800 600 2147483647 (fun m => m)) 0).x ∧
      _ = (particleAt (generate PARTICLE_COUNT 800 600 2147483647 (fun m => m)) 0).y ∧
      _ = (particleAt (generate PARTICLE_COUNT 800 600 2147483647 (fun m => m)) 1).x ∧
      _ = (particleAt (generate PARTICLE_COUNT 800 600 2147483647 (fun m => m)) 1).y
    rw [particleAt_generate _ _ _ _ _ 0 hn0, particleAt_generate _ _ _ _ _ 1 hn1]
    exact ⟨⟨by decide, hn1⟩, rfl, rfl, rfl, rfl⟩
  have hne : random_x 800 2147483647 0 ≠ random_x 800 2147483647 6 ∨
      random_y 600 2147483647 1 ≠ random_y 600 2147483647 7 := by
    left
    unfold random_x rand_01
    norm_num
  have hlt : distance (random_x 800 2147483647 0) (random_y 600 2147483647 1)
      (random_x 800 2147483647 6) (random_y 600 2147483647 7) < THRESHOLD := by
    unfold distance THRESHOLD
    rw [Real.sqrt_lt' (by norm_num)]
    unfold random_x random_y rand_01
    norm_num
  exact (line_between_dist_pos PARTICLE_COUNT 800 600 [] 800 600 2147483647 (fun m => m)
    0 1 _ _ _ _ hcall hne hlt).2.1

end Constellations
